import Mathlib

set_option autoImplicit false

/-!
Verification of the kiali traffic-graph health pipeline: a shallow embedding of
the health appender (`graph/telemetry/istio/appender/health.go`), the graph
request orchestrator (`graph/api/api.go`), and the business-layer health
service (`business` package), together with a spec-modelled traffic-map
builder.  Go maps are embedded as association lists, Go `panic`-style aborts
(`graph.CheckError`) as `Except`, and external collaborators (metrics client,
cluster-state cache) as explicit oracle arguments; the external queries a
function performs are returned alongside its result.
-/

namespace Kiali

/-! ## Association-list helpers (embedding of Go maps) -/

/-- Lookup in an association list; embeds Go map read `m[k]` with its `ok` flag. -/
def assocGet {κ α : Type} [DecidableEq κ] : List (κ × α) → κ → Option α
  | [], _ => none
  | (k', v) :: rest, k => if k' = k then some v else assocGet rest k

/-- Map write `m[k] = v`: replaces the value when the key is present, appends otherwise. -/
def assocSet {κ α : Type} [DecidableEq κ] : List (κ × α) → κ → α → List (κ × α)
  | [], k, v => [(k, v)]
  | (k', v') :: rest, k, v =>
    if k' = k then (k, v) :: rest else (k', v') :: assocSet rest k v

/-- In-place mutation through a looked-up map entry (Go: mutate `*m[k]`). -/
def assocModify {κ α : Type} [DecidableEq κ] (m : List (κ × α)) (k : κ) (f : α → α) :
    List (κ × α) :=
  m.map (fun p => if p.1 = k then (p.1, f p.2) else p)

/-- The keys of an association list. -/
def assocKeys {κ α : Type} (m : List (κ × α)) : List κ := m.map Prod.fst

/-! ## Business-layer health model (`business/health.go`, src/unnamed/part_007) -/

/-- A Prometheus time-series sample (`model.Sample`): a label set and a rate value. -/
structure Sample where
  Metric : List (String × String)
  Value : Rat
deriving DecidableEq

/-- Reading a label from a sample; a missing label reads as the empty string,
as Go's `string(sample.Metric[lbl])` does. -/
def lookupLabel (s : Sample) (lbl : String) : String :=
  (assocGet s.Metric lbl).getD ""

/-- `models.RequestHealth`: inbound/outbound request-rate samples plus health
annotations used by client-side scoring. -/
structure RequestHealth where
  Inbound : List Sample
  Outbound : List Sample
  HealthAnnotations : List (String × String)
deriving DecidableEq

/-- `models.NewEmptyRequestHealth()`. -/
def NewEmptyRequestHealth : RequestHealth := ⟨[], [], []⟩

def RequestHealth.AggregateInbound (rq : RequestHealth) (s : Sample) : RequestHealth :=
  { rq with Inbound := rq.Inbound ++ [s] }

def RequestHealth.AggregateOutbound (rq : RequestHealth) (s : Sample) : RequestHealth :=
  { rq with Outbound := rq.Outbound ++ [s] }

/-- Modelled from the spec: `models.RequestHealth.CombineReporters` is not under
src/.  It normalizes the two telemetry reporter views of the same aggregated
samples in place; it neither adds nor removes aggregated samples nor touches any
map key, so it is embedded as the identity normalization. -/
def RequestHealth.CombineReporters (rq : RequestHealth) : RequestHealth := rq

/-- `models.WorkloadStatus`. -/
structure WorkloadStatus where
  Name : String
  DesiredReplicas : Int
  CurrentReplicas : Int
  AvailableReplicas : Int
deriving DecidableEq

/-- `models.Workload`, restricted to the fields the health service reads. -/
structure Workload where
  Name : String
  IstioSidecar : Bool
  HealthAnnotations : List (String × String)
  DesiredReplicas : Int
  CurrentReplicas : Int
  AvailableReplicas : Int
deriving DecidableEq

/-- Modelled from the spec: `models.Workload.CastWorkloadStatus` is not under
src/; it projects a workload to its replica-status record. -/
def Workload.CastWorkloadStatus (w : Workload) : WorkloadStatus :=
  ⟨w.Name, w.DesiredReplicas, w.CurrentReplicas, w.AvailableReplicas⟩

/-- `models.Workloads.CastWorkloadStatuses`. -/
def CastWorkloadStatuses (ws : List Workload) : List WorkloadStatus :=
  ws.map Workload.CastWorkloadStatus

/-- `models.ServiceHealth`. -/
structure ServiceHealth where
  Requests : RequestHealth
deriving DecidableEq

/-- `models.EmptyServiceHealth()`. -/
def EmptyServiceHealth : ServiceHealth := ⟨NewEmptyRequestHealth⟩

/-- `models.AppHealth`. -/
structure AppHealth where
  WorkloadStatuses : List WorkloadStatus
  Requests : RequestHealth
deriving DecidableEq

/-- `models.EmptyAppHealth()`. -/
def EmptyAppHealth : AppHealth := ⟨[], NewEmptyRequestHealth⟩

/-- `models.WorkloadHealth`. -/
structure WorkloadHealth where
  WorkloadStatus : WorkloadStatus
  Requests : RequestHealth
deriving DecidableEq

/-- `models.EmptyWorkloadHealth()`: zero-valued status, empty requests. -/
def EmptyWorkloadHealth : WorkloadHealth := ⟨⟨"", 0, 0, 0⟩, NewEmptyRequestHealth⟩

/-- Errors surfaced by collaborators and by the abort path (`graph.CheckError`). -/
inductive KialiError
  | serviceUnavailable (msg : String)
  | queryFailure (msg : String)
  | accessDenied (msg : String)
deriving DecidableEq

/-- The message carried by an error (Go `err.Error()`). -/
def KialiError.msg : KialiError → String
  | .serviceUnavailable m => m
  | .queryFailure m => m
  | .accessDenied m => m

/-- The annotation-key filter `business.HealthAnnotation`
(`[]models.AnnotationKey{models.RateHealthAnnotation}`). -/
def rateHealthAnnotationKeys : List String := ["health.kiali.io/rate"]

/-- Modelled from the spec: `models.GetHealthAnnotation` is not under src/; it
selects from an annotations map the entries whose key is in the filter list. -/
def getHealthAnnotationFiltered (anns : List (String × String)) (keys : List String) :
    List (String × String) :=
  anns.filter (fun p => p.1 ∈ keys)

/-- `models.Service`, restricted to the fields the health service reads. -/
structure Service where
  Name : String
  HealthAnnotations : List (String × String)
deriving DecidableEq

/-- `models.ServiceList`. -/
structure ServiceList where
  Services : List Service
deriving DecidableEq

/-- The service names of a possibly-nil service list. -/
def serviceNames : Option ServiceList → List String
  | none => []
  | some sl => sl.Services.map Service.Name

/-- The per-service entry of `getNamespaceServiceHealth`'s preparation loop:
empty health carrying the service's health annotations. -/
def serviceHealthEntry (service : Service) : ServiceHealth :=
  ⟨{ NewEmptyRequestHealth with HealthAnnotations := service.HealthAnnotations }⟩

/-- The preparation loop of `getNamespaceServiceHealth`: one entry per listed
service, nil list giving the empty map ("provide data for all services, even
those which may not have any health"). -/
def nsServiceHealthInit (services : Option ServiceList) : List (String × ServiceHealth) :=
  match services with
  | none => []
  | some sl => sl.Services.foldl (fun m service => assocSet m service.Name (serviceHealthEntry service)) []

/-- One iteration of `getNamespaceServiceHealth`'s fill loop: a rate sample is
aggregated into the entry its `destination_service_name` label matches, and
dropped when no listed service matches. -/
def nsServiceFillStep (m : List (String × ServiceHealth)) (sample : Sample) :
    List (String × ServiceHealth) :=
  let service := lookupLabel sample "destination_service_name"
  match assocGet m service with
  | some _ => assocModify m service (fun h => ⟨h.Requests.AggregateInbound sample⟩)
  | none => m

/-- `healthService.getNamespaceServiceHealth`.  `services` may be nil (`none`);
`ratesResult` is the outcome of the single
`prom.GetNamespaceServicesRequestRates` metrics query, whose error the source
discards (`rates, _ := ...`), leaving the rate vector empty. -/
def getNamespaceServiceHealth (services : Option ServiceList)
    (ratesResult : Except KialiError (List Sample)) :
    List (String × ServiceHealth) :=
  let rates : List Sample :=
    match ratesResult with
    | .ok v => v
    | .error _ => []
  let filled := rates.foldl nsServiceFillStep (nsServiceHealthInit services)
  filled.map (fun p => (p.1, ⟨p.2.Requests.CombineReporters⟩))

/-- The per-workload entry built by `getNamespaceWorkloadHealth`'s first loop. -/
def workloadHealthEntry (w : Workload) : WorkloadHealth :=
  { EmptyWorkloadHealth with
      WorkloadStatus := w.CastWorkloadStatus
      Requests := { EmptyWorkloadHealth.Requests with
                      HealthAnnotations :=
                        getHealthAnnotationFiltered w.HealthAnnotations
                          rateHealthAnnotationKeys } }

/-- `business.fillWorkloadRequestRates`. -/
def fillWorkloadRequestRates (allHealth : List (String × WorkloadHealth))
    (rates : List Sample) : List (String × WorkloadHealth) :=
  let filled :=
    rates.foldl
      (fun m sample =>
        let dest := lookupLabel sample "destination_workload"
        let m :=
          match assocGet m dest with
          | some _ =>
            assocModify m dest
              (fun h => { h with Requests := h.Requests.AggregateInbound sample })
          | none => m
        let src := lookupLabel sample "source_workload"
        match assocGet m src with
        | some _ =>
          assocModify m src
            (fun h => { h with Requests := h.Requests.AggregateOutbound sample })
        | none => m)
      allHealth
  filled.map (fun p => (p.1, { p.2 with Requests := p.2.Requests.CombineReporters }))

/-- `healthService.getNamespaceWorkloadHealth`.  The third component records
whether the `GetAllRequestRates` metrics query was performed (Go: the
`if hasSidecar` guard). -/
def getNamespaceWorkloadHealth (ws : List Workload)
    (ratesResult : Except KialiError (List Sample)) :
    List (String × WorkloadHealth) × Option KialiError × Bool :=
  let init :=
    ws.foldl
      (fun (acc : List (String × WorkloadHealth) × Bool) w =>
        (assocSet acc.1 w.Name (workloadHealthEntry w), acc.2 || w.IstioSidecar))
      ([], false)
  let allHealth := init.1
  let hasSidecar := init.2
  if hasSidecar then
    match ratesResult with
    | .error e => (allHealth, some (KialiError.serviceUnavailable e.msg), true)
    | .ok rates => (fillWorkloadRequestRates allHealth rates, none, true)
  else
    (allHealth, none, false)

/-- The app details bundle held by `business.namespaceApps` (nil-able). -/
structure AppDetails where
  Workloads : List Workload
deriving DecidableEq

/-- The per-app entry built by `getNamespaceAppHealth`'s first loop. -/
def appHealthEntry (p : String × Option AppDetails) : AppHealth :=
  match p.2 with
  | some entities =>
    { EmptyAppHealth with WorkloadStatuses := CastWorkloadStatuses entities.Workloads }
  | none => EmptyAppHealth

/-- The map component of `getNamespaceAppHealth`'s first loop: apps with an
empty name are skipped. -/
def appStepMap (m : List (String × AppHealth)) (p : String × Option AppDetails) :
    List (String × AppHealth) :=
  if p.1 ≠ "" then assocSet m p.1 (appHealthEntry p) else m

/-- The sidecar-scan component of `getNamespaceAppHealth`'s first loop. -/
def appStepSidecar (b : Bool) (p : String × Option AppDetails) : Bool :=
  if p.1 ≠ "" then
    match p.2 with
    | some entities => b || entities.Workloads.any Workload.IstioSidecar
    | none => b
  else b

/-- `business.fillAppRequestRates`. -/
def fillAppRequestRates (allHealth : List (String × AppHealth))
    (rates : List Sample) : List (String × AppHealth) :=
  let filled :=
    rates.foldl
      (fun m sample =>
        let dest := lookupLabel sample "destination_canonical_service"
        let m :=
          match assocGet m dest with
          | some _ =>
            assocModify m dest
              (fun h => { h with Requests := h.Requests.AggregateInbound sample })
          | none => m
        let src := lookupLabel sample "source_canonical_service"
        match assocGet m src with
        | some _ =>
          assocModify m src
            (fun h => { h with Requests := h.Requests.AggregateOutbound sample })
        | none => m)
      allHealth
  filled.map (fun p => (p.1, { p.2 with Requests := p.2.Requests.CombineReporters }))

/-- `healthService.getNamespaceAppHealth`.  The third component records whether
the `GetAllRequestRates` metrics query was performed. -/
def getNamespaceAppHealth (appEntities : List (String × Option AppDetails))
    (ratesResult : Except KialiError (List Sample)) :
    List (String × AppHealth) × Option KialiError × Bool :=
  let init :=
    appEntities.foldl
      (fun (acc : List (String × AppHealth) × Bool) p =>
        (appStepMap acc.1 p, appStepSidecar acc.2 p))
      ([], false)
  let allHealth := init.1
  let sidecarPresent := init.2
  if sidecarPresent then
    match ratesResult with
    | .error e => (allHealth, some (KialiError.serviceUnavailable e.msg), true)
    | .ok rates => (fillAppRequestRates allHealth rates, none, true)
  else
    (allHealth, none, false)

/-- `healthService.getAppRequestsHealth`: aggregates the app's inbound/outbound
request-rate samples, or reports `ServiceUnavailable` on query failure. -/
def getAppRequestsHealth (res : Except KialiError (List Sample × List Sample)) :
    RequestHealth × Option KialiError :=
  let rqHealth := NewEmptyRequestHealth
  match res with
  | .error e => (rqHealth, some (KialiError.serviceUnavailable e.msg))
  | .ok (inbound, outbound) =>
    let rq1 := inbound.foldl RequestHealth.AggregateInbound rqHealth
    let rq2 := outbound.foldl RequestHealth.AggregateOutbound rq1
    (rq2.CombineReporters, none)

/-- `healthService.getAppHealth`.  The third component records whether the
request-rates metrics query was performed (Go: the `if hasSidecar` guard). -/
def getAppHealth (ws : List Workload)
    (ratesResult : Except KialiError (List Sample × List Sample)) :
    AppHealth × Option KialiError × Bool :=
  let hasSidecar := ws.any Workload.IstioSidecar
  if hasSidecar then
    let rq := getAppRequestsHealth ratesResult
    ({ EmptyAppHealth with
         Requests := rq.1
         WorkloadStatuses := CastWorkloadStatuses ws },
     rq.2, true)
  else
    ({ EmptyAppHealth with WorkloadStatuses := CastWorkloadStatuses ws }, none, false)

/-! ## Graph model

The `graph` package itself (node/edge types, `TrafficMap`, `CheckError`,
`IsOK`, the metadata keys) is not under src/; only its users are.  The node
and metadata shapes below follow the spec's data model (§3) and the fields the
appender and orchestrator code under src/ actually reads and writes. -/

/-- Node kinds (spec §3: `kind` ∈ {Workload, App, Service, Box, Unknown});
embeds the `graph.NodeType*` string constants as a closed enum. -/
inductive NodeType
  | app
  | service
  | workload
  | box
  | unknown
deriving DecidableEq

/-- The metadata keys the health appender reads and writes
(`graph.IsInaccessible`, `graph.IsOutside`, `graph.HasHealthConfig`,
`graph.HealthData`, `graph.HealthDataApp`). -/
inductive MetadataKey
  | IsInaccessible
  | IsOutside
  | HasHealthConfig
  | HealthData
  | HealthDataApp
deriving DecidableEq

/-- The values the health appender stores in node metadata.  `noData` embeds
the explicit empty-list marker `[]int{}` the source attaches when a batched
result has no entry for a node; it is a distinct constructor, so it is
distinguishable from every real health record (including one with zero
traffic). -/
inductive MetadataValue
  | flag (b : Bool)
  | healthConfig (cfg : List (String × String))
  | appHealthData (h : AppHealth)
  | svcHealthData (h : ServiceHealth)
  | wkHealthData (h : WorkloadHealth)
  | noData
deriving DecidableEq

abbrev Metadata := List (MetadataKey × MetadataValue)

/-- Modelled from the spec: a graph node (spec §3), with the identity fields
and the mutable metadata map of the source's `graph.Node` (not under src/).
`ID` is the serialized identity key ("identity is unique within a traffic
map"). -/
structure Node where
  ID : String
  NodeType : NodeType
  Cluster : String
  Namespace : String
  App : String
  Version : String
  Workload : String
  Service : String
  Metadata : Metadata
deriving DecidableEq

/-- A traffic map, embedded as its list of nodes; the map invariant that
identity keys are unique appears as a `Nodup` hypothesis where needed. -/
abbrev TrafficMap := List Node

/-- The Go guard `if b, ok := n.Metadata[graph.IsInaccessible]; ok && b.(bool)`. -/
def checkInaccessible (md : Metadata) : Bool :=
  match assocGet md MetadataKey.IsInaccessible with
  | some (MetadataValue.flag b) => b
  | _ => false

/-- The Go read of the `graph.IsOutside` flag, same shape as the
inaccessible-flag guard. -/
def checkOutside (md : Metadata) : Bool :=
  match assocGet md MetadataKey.IsOutside with
  | some (MetadataValue.flag b) => b
  | _ => false

/-- Modelled from the spec: `graph.IsOK` (not under src/) — an identity name
field is populated when it is neither empty nor the "unknown" sentinel
(spec §3: fields not applicable are left as a sentinel "unspecified" value). -/
def IsOK (s : String) : Bool := s ≠ "" && s ≠ "unknown"

/-- First node of the map with the given identity key (Go `trafficMap[id]`). -/
def findNode : TrafficMap → String → Option Node
  | [], _ => none
  | n :: rest, id => if n.ID = id then some n else findNode rest id

/-- The identity keys of a traffic map. -/
def nodeIDs (tm : TrafficMap) : List String := tm.map Node.ID

/-! ## Health appender (`graph/telemetry/istio/appender/health.go`) -/

/-- `graph.NamespaceInfo`, restricted to the authorized duration the appender
reads. -/
structure NamespaceInfo where
  Duration : Nat
deriving DecidableEq

/-- `appender.HealthAppender`. -/
structure HealthAppender where
  Namespaces : List (String × NamespaceInfo)
  QueryTime : Int
  RequestedDuration : Nat

/-- Cluster-state definitions carrying health annotations, as returned by the
appender cache helpers `getServiceDefinition` / `getWorkload` (not under src/,
embedded as oracle lookups on the global info). -/
structure ServiceDefinition where
  HealthAnnotations : List (String × String)
deriving DecidableEq

structure WorkloadDefinition where
  HealthAnnotations : List (String × String)
deriving DecidableEq

/-- The read-only collaborators reachable through `graph.AppenderGlobalInfo`:
cluster-state lookups (namespace × name) used by `attachHealthConfig`. -/
structure GlobalInfo where
  serviceDefinitions : String → String → Option ServiceDefinition
  workloadDefinitions : String → String → Option WorkloadDefinition

/-- The batched namespace-level health queries of `business.Layer.Health` as
seen from the appender: namespace and duration in, a name-keyed health map or
an error out. -/
structure HealthClient where
  GetNamespaceAppHealth : String → Nat → Except KialiError (List (String × AppHealth))
  GetNamespaceServiceHealth : String → Nat → Except KialiError (List (String × ServiceHealth))
  GetNamespaceWorkloadHealth : String → Nat → Except KialiError (List (String × WorkloadHealth))

/-- The annotation-key filter `models.GetHealthConfigAnnotation()` (not under
src/; modelled from the spec as the health-config annotation key list). -/
def healthConfigAnnotationKeys : List String := ["health.kiali.io/rate"]

/-- One iteration of `attachHealthConfig`'s loop body: skip inaccessible
nodes; for service and workload nodes whose definition is found, attach the
custom health configuration under `graph.HasHealthConfig`. -/
def attachHealthConfigNode (gi : GlobalInfo) (n : Node) : Node :=
  if checkInaccessible n.Metadata then n
  else
    match n.NodeType with
    | NodeType.service =>
      match gi.serviceDefinitions n.Namespace n.Service with
      | some srv =>
        { n with
            Metadata :=
              assocSet n.Metadata MetadataKey.HasHealthConfig
                (MetadataValue.healthConfig
                  (getHealthAnnotationFiltered srv.HealthAnnotations
                    healthConfigAnnotationKeys)) }
      | none => n
    | NodeType.workload =>
      match gi.workloadDefinitions n.Namespace n.Workload with
      | some w =>
        { n with
            Metadata :=
              assocSet n.Metadata MetadataKey.HasHealthConfig
                (MetadataValue.healthConfig
                  (getHealthAnnotationFiltered w.HealthAnnotations
                    healthConfigAnnotationKeys)) }
      | none => n
    | _ => n

/-- `HealthAppender.attachHealthConfig`: the loop mutates only the node at
hand, so it is a per-node map over the traffic map. -/
def attachHealthConfig (gi : GlobalInfo) (tm : TrafficMap) : TrafficMap :=
  tm.map (attachHealthConfigNode gi)

/-- The grouping structure `healthReqs : map[string]map[string][]*graph.Node`,
flattened to one association list keyed by (namespace, resource kind). -/
abbrev HealthReqs := List ((String × NodeType) × List Node)

/-- Appending a node to its (namespace, kind) group
(`healthReqs[ns][kind] = append(...)`). -/
def addReq (reqs : HealthReqs) (ns : String) (kind : NodeType) (n : Node) : HealthReqs :=
  match assocGet reqs (ns, kind) with
  | some nodes => assocSet reqs (ns, kind) (nodes ++ [n])
  | none => reqs ++ [((ns, kind), [n])]

/-- One iteration of `attachHealth`'s grouping loop: skip inaccessible nodes;
app nodes always join the App group and, when they carry a populated workload
name (a versioned app node), also the Workload group; workload and service
nodes join their own kind's group. -/
def buildHealthReqsStep (reqs : HealthReqs) (n : Node) : HealthReqs :=
  if checkInaccessible n.Metadata then reqs
  else
    match n.NodeType with
    | NodeType.app =>
      let reqs' := addReq reqs n.Namespace NodeType.app n
      if IsOK n.Workload then addReq reqs' n.Namespace NodeType.workload n else reqs'
    | NodeType.workload => addReq reqs n.Namespace NodeType.workload n
    | NodeType.service => addReq reqs n.Namespace NodeType.service n
    | _ => reqs

/-- The grouping phase of `attachHealth` (lines 73–109). -/
def buildHealthReqs (tm : TrafficMap) : HealthReqs :=
  tm.foldl buildHealthReqsStep []

/-- The nodes of one (namespace, kind) group. -/
def groupNodes (reqs : HealthReqs) (key : String × NodeType) : List Node :=
  (assocGet reqs key).getD []

/-- `duration := a.RequestedDuration` overridden by the namespace's authorized
duration when the namespace is in the appender's scope map. -/
def authorizedDuration (a : HealthAppender) (ns : String) : Nat :=
  match assocGet a.Namespaces ns with
  | some info => info.Duration
  | none => a.RequestedDuration

/-- Record of one executed batched health query. -/
structure HealthQuery where
  Namespace : String
  Kind : NodeType
  Duration : Nat
deriving DecidableEq

/-- Update the metadata of the node with the given identity key (embedding of
mutation through the `*graph.Node` pointers held by a group). -/
def updateNodeMeta (tm : TrafficMap) (id : String) (f : Metadata → Metadata) : TrafficMap :=
  tm.map (fun m => if m.ID = id then { m with Metadata := f m.Metadata } else m)

/-- Distribution of a batched `NamespaceAppHealth` result (lines 125–137):
a node whose app name matches an entry stores it under `HealthDataApp` when it
is a versioned app node, under `HealthData` otherwise; a node with no matching
entry gets the explicit no-data marker. -/
def distributeAppHealth (health : List (String × AppHealth)) (nodes : List Node)
    (tm : TrafficMap) : TrafficMap :=
  nodes.foldl
    (fun tm n =>
      match assocGet health n.App with
      | some h =>
        if IsOK n.Workload then
          updateNodeMeta tm n.ID
            (fun md => assocSet md MetadataKey.HealthDataApp (MetadataValue.appHealthData h))
        else
          updateNodeMeta tm n.ID
            (fun md => assocSet md MetadataKey.HealthData (MetadataValue.appHealthData h))
      | none =>
        updateNodeMeta tm n.ID
          (fun md => assocSet md MetadataKey.HealthData MetadataValue.noData))
    tm

/-- Distribution of a batched `NamespaceServiceHealth` result (lines 142–149). -/
def distributeServiceHealth (health : List (String × ServiceHealth)) (nodes : List Node)
    (tm : TrafficMap) : TrafficMap :=
  nodes.foldl
    (fun tm n =>
      match assocGet health n.Service with
      | some h =>
        updateNodeMeta tm n.ID
          (fun md => assocSet md MetadataKey.HealthData (MetadataValue.svcHealthData h))
      | none =>
        updateNodeMeta tm n.ID
          (fun md => assocSet md MetadataKey.HealthData MetadataValue.noData))
    tm

/-- Distribution of a batched `NamespaceWorkloadHealth` result (lines 154–161). -/
def distributeWorkloadHealth (health : List (String × WorkloadHealth)) (nodes : List Node)
    (tm : TrafficMap) : TrafficMap :=
  nodes.foldl
    (fun tm n =>
      match assocGet health n.Workload with
      | some h =>
        updateNodeMeta tm n.ID
          (fun md => assocSet md MetadataKey.HealthData (MetadataValue.wkHealthData h))
      | none =>
        updateNodeMeta tm n.ID
          (fun md => assocSet md MetadataKey.HealthData MetadataValue.noData))
    tm

/-- Processing of one (namespace, kind) group in `attachHealth`'s fetch loop
(lines 113–164): compute the duration, run the batched query, abort the whole
computation on a query error (`graph.CheckError`), otherwise distribute the
result and record the executed query. -/
def attachHealthGroup (a : HealthAppender) (bs : HealthClient)
    (acc : TrafficMap × List HealthQuery) (grp : (String × NodeType) × List Node) :
    Except KialiError (TrafficMap × List HealthQuery) :=
  let ns := grp.1.1
  let duration := authorizedDuration a ns
  match grp.1.2 with
  | NodeType.app =>
    match bs.GetNamespaceAppHealth ns duration with
    | Except.error e => Except.error e
    | Except.ok health =>
      Except.ok (distributeAppHealth health grp.2 acc.1,
        acc.2 ++ [⟨ns, NodeType.app, duration⟩])
  | NodeType.service =>
    match bs.GetNamespaceServiceHealth ns duration with
    | Except.error e => Except.error e
    | Except.ok health =>
      Except.ok (distributeServiceHealth health grp.2 acc.1,
        acc.2 ++ [⟨ns, NodeType.service, duration⟩])
  | NodeType.workload =>
    match bs.GetNamespaceWorkloadHealth ns duration with
    | Except.error e => Except.error e
    | Except.ok health =>
      Except.ok (distributeWorkloadHealth health grp.2 acc.1,
        acc.2 ++ [⟨ns, NodeType.workload, duration⟩])
  | _ => Except.ok acc

/-- `HealthAppender.attachHealth`: group, then fetch-and-distribute per group.
A failed batched query propagates as `Except.error` (the embedding of the
`graph.CheckError` panic that aborts the request).  Alongside the final map it
returns the executed batched queries. -/
def attachHealth (a : HealthAppender) (bs : HealthClient) (tm : TrafficMap) :
    Except KialiError (TrafficMap × List HealthQuery) :=
  (buildHealthReqs tm).foldlM (attachHealthGroup a bs) (tm, [])

/-- `HealthAppender.AppendGraph`: immediate return on an empty traffic map,
otherwise attach health configuration, then health data. -/
def AppendGraph (a : HealthAppender) (gi : GlobalInfo) (bs : HealthClient)
    (tm : TrafficMap) : Except KialiError (TrafficMap × List HealthQuery) :=
  if tm.length = 0 then Except.ok (tm, [])
  else attachHealth a bs (attachHealthConfig gi tm)

/-- The metadata value a service node receives from a batched service-health
result: its matching entry, or the explicit no-data marker. -/
def serviceHealthValue (health : List (String × ServiceHealth)) (n : Node) : MetadataValue :=
  match assocGet health n.Service with
  | some h => MetadataValue.svcHealthData h
  | none => MetadataValue.noData

/-- The metadata value a workload-group node receives from a batched
workload-health result. -/
def workloadHealthValue (health : List (String × WorkloadHealth)) (n : Node) : MetadataValue :=
  match assocGet health n.Workload with
  | some h => MetadataValue.wkHealthData h
  | none => MetadataValue.noData

/-- The metadata update one service-group node undergoes during distribution. -/
def svcHealthUpd (health : List (String × ServiceHealth)) (n : Node) (md : Metadata) : Metadata :=
  assocSet md MetadataKey.HealthData (serviceHealthValue health n)

/-- The metadata update one workload-group node undergoes during distribution. -/
def wkHealthUpd (health : List (String × WorkloadHealth)) (n : Node) (md : Metadata) : Metadata :=
  assocSet md MetadataKey.HealthData (workloadHealthValue health n)

/-- The metadata update one app-group node undergoes during distribution:
a matching entry lands under `HealthDataApp` for a versioned app node and
under `HealthData` otherwise; no entry yields the no-data marker. -/
def appHealthUpd (health : List (String × AppHealth)) (n : Node) (md : Metadata) : Metadata :=
  match assocGet health n.App with
  | some h =>
    if IsOK n.Workload then assocSet md MetadataKey.HealthDataApp (MetadataValue.appHealthData h)
    else assocSet md MetadataKey.HealthData (MetadataValue.appHealthData h)
  | none => assocSet md MetadataKey.HealthData MetadataValue.noData

/-- Whether the grouping loop places node `n` in the (namespace, kind) group
`key` — the characterization of `buildHealthReqsStep`'s case analysis. -/
def nodeGroupKeyCond (n : Node) (key : String × NodeType) : Bool :=
  if checkInaccessible n.Metadata then false
  else if key.1 = n.Namespace then
    match key.2, n.NodeType with
    | NodeType.app, NodeType.app => true
    | NodeType.workload, NodeType.app => IsOK n.Workload
    | NodeType.workload, NodeType.workload => true
    | NodeType.service, NodeType.service => true
    | _, _ => false
  else false

/-- Whether the batched health query a group of the given kind would issue
fails on this client. -/
def groupQueryFailed (bs : HealthClient) (kind : NodeType) (ns : String) (d : Nat) : Bool :=
  match kind with
  | NodeType.app =>
    match bs.GetNamespaceAppHealth ns d with
    | Except.error _ => true
    | Except.ok _ => false
  | NodeType.service =>
    match bs.GetNamespaceServiceHealth ns d with
    | Except.error _ => true
    | Except.ok _ => false
  | NodeType.workload =>
    match bs.GetNamespaceWorkloadHealth ns d with
    | Except.error _ => true
    | Except.ok _ => false
  | _ => false

/-! ## Request orchestrator (`graph/api/api.go`) -/

/-- The request options the orchestrator reads (`graph.Options`). -/
structure Options where
  Namespaces : List String
  TelemetryVendor : String
  ConfigVendor : String
deriving DecidableEq

/-- Modelled from the spec: the panic value of the `graph` package error
helpers (not under src/) — a response code plus message; `graph.Error` raises
a 400-class ScopeError (spec §7 taxonomy (a)). -/
structure GraphPanic where
  Code : Nat
  Message : String
deriving DecidableEq

/-- `graph.Error`: a 400-class scope/request error. -/
def graphScopeError (msg : String) : GraphPanic := ⟨400, msg⟩

/-- Modelled from the spec: `graph.CheckError` (not under src/) aborts the
request with the underlying error; the orchestrator maps it to a response code
(spec §7: AccessError 403-class, upstream failure 500-class). -/
def checkErrorPanic : KialiError → GraphPanic
  | KialiError.serviceUnavailable m => ⟨503, m⟩
  | KialiError.queryFailure m => ⟨500, m⟩
  | KialiError.accessDenied m => ⟨403, m⟩

/-- `api.generateGraph`: project the traffic map with the configured vendor
and return 200.  The cytoscape projection (not under src/) is passed in as the
opaque pure function `project`; the generator branch's synthetic output is the
opaque `generated`. -/
def generateGraph (project : TrafficMap → TrafficMap) (generated : TrafficMap)
    (tm : TrafficMap) (o : Options) : Except GraphPanic (Nat × TrafficMap) :=
  if o.ConfigVendor = "cytoscape" then Except.ok (200, project tm)
  else if o.ConfigVendor = "cytoscape-generator" then Except.ok (200, generated)
  else Except.error (graphScopeError ("ConfigVendor [" ++ o.ConfigVendor ++ "] not supported"))

/-- `api.GraphNode`: the node-centric orchestrator entry point.  The scope
check (`len(o.Namespaces) != 1`) raises a 400-class error before anything
else; only in the istio branch are the prometheus client created
(`newClient`) and the traffic-map builder (`buildNodeTrafficMap`) invoked,
each abort being `graph.CheckError`. -/
def GraphNode (o : Options) (newClient : Except KialiError Unit)
    (buildNodeTrafficMap : Options → Except KialiError TrafficMap)
    (project : TrafficMap → TrafficMap) (generated : TrafficMap) :
    Except GraphPanic (Nat × TrafficMap) :=
  if o.Namespaces.length ≠ 1 then
    Except.error (graphScopeError "Node graph does not support the namespaces query parameter or the all namespace")
  else if o.TelemetryVendor = "istio" then
    match newClient with
    | Except.error e => Except.error (checkErrorPanic e)
    | Except.ok _ =>
      match buildNodeTrafficMap o with
      | Except.error e => Except.error (checkErrorPanic e)
      | Except.ok tm => generateGraph project generated tm o
  else
    Except.error (graphScopeError ("TelemetryVendor [" ++ o.TelemetryVendor ++ "] not supported"))

/-! ## Traffic-map builder (spec-modelled)

The istio telemetry builder (`graph/telemetry/istio/istio.go`) is not under
src/; the definitions below are modelled from the spec (§4.1–§4.2): identity
is the full field tuple with a pure, order-independent key; every sample
resolves or creates its two nodes idempotently, and repeated samples for the
same (source, destination, protocol) triple aggregate into one edge (rates
summed, response breakdowns merged). -/

/-- Modelled from the spec: the composite node identity
`(cluster, namespace, kind, app, version, workload, service)` (§3); with
decidable equality the tuple itself is the canonical, pure, fixed-field-order
identity key (§4.1). -/
structure GIdentity where
  Cluster : String
  Namespace : String
  Kind : NodeType
  App : String
  Version : String
  Workload : String
  Service : String
deriving DecidableEq

/-- Modelled from the spec: one raw traffic sample (§4.2): source and
destination identity fields, protocol, numeric rate, and a breakdown by
response classification. -/
structure RawSample where
  Source : GIdentity
  Dest : GIdentity
  Protocol : String
  Rate : Rat
  Responses : List (String × Rat)
deriving DecidableEq

/-- Modelled from the spec: a directed edge (§3): target, protocol, aggregated
rate and merged response breakdown. -/
structure GEdge where
  Target : GIdentity
  Protocol : String
  Rate : Rat
  Responses : List (String × Rat)
deriving DecidableEq

/-- Modelled from the spec: a builder node owning its outbound edges (§3). -/
structure GNode where
  Identity : GIdentity
  Edges : List GEdge
deriving DecidableEq

/-- Whether the map already holds a node with the given identity. -/
def hasIdentity : List GNode → GIdentity → Bool
  | [], _ => false
  | n :: rest, id => if n.Identity = id then true else hasIdentity rest id

/-- Idempotent lookup-or-insert of a node (§4.2 step 1). -/
def upsertNode (tm : List GNode) (id : GIdentity) : List GNode :=
  if hasIdentity tm id then tm else tm ++ [⟨id, []⟩]

/-- Merging a sample's response breakdown into an edge's breakdown: per
classification, rates are summed. -/
def mergeResponses (rs : List (String × Rat)) (incoming : List (String × Rat)) :
    List (String × Rat) :=
  incoming.foldl
    (fun acc p =>
      match assocGet acc p.1 with
      | some r => assocSet acc p.1 (r + p.2)
      | none => acc ++ [p])
    rs

/-- Resolve-or-create of the edge for a (target, protocol) pair in a source
node's edge list (§4.2 step 2): an existing edge aggregates the new sample's
rate and responses, otherwise a new edge is appended. -/
def addEdge : List GEdge → GIdentity → String → Rat → List (String × Rat) → List GEdge
  | [], tgt, proto, rate, resp => [⟨tgt, proto, rate, resp⟩]
  | e :: rest, tgt, proto, rate, resp =>
    if e.Target = tgt ∧ e.Protocol = proto then
      ⟨tgt, proto, e.Rate + rate, mergeResponses e.Responses resp⟩ :: rest
    else
      e :: addEdge rest tgt proto rate resp

/-- Attach one sample's edge contribution to its source node. -/
def applySampleEdges (tm : List GNode) (s : RawSample) : List GNode :=
  tm.map
    (fun n =>
      if n.Identity = s.Source then
        { n with Edges := addEdge n.Edges s.Dest s.Protocol s.Rate s.Responses }
      else n)

/-- Processing of one sample: resolve/create both nodes, then the edge. -/
def buildStep (tm : List GNode) (s : RawSample) : List GNode :=
  applySampleEdges (upsertNode (upsertNode tm s.Source) s.Dest) s

/-- Modelled from the spec: the traffic-map builder over a sample sequence
(§4.2 steps 1–2). -/
def buildTrafficMap (samples : List RawSample) : List GNode :=
  samples.foldl buildStep []

/-- Whether a sample carries the given (source, destination, protocol) triple. -/
def sampleMatches (s : RawSample) (src dst : GIdentity) (proto : String) : Bool :=
  if s.Source = src then (if s.Dest = dst then (if s.Protocol = proto then true else false) else false) else false

/-- The identities present in a builder map. -/
def gIdentities (tm : List GNode) : List GIdentity := tm.map GNode.Identity

/-- Total rate a response breakdown records for one classification code
(summed over duplicate entries, so duplicates would inflate it). -/
def responsesRate (rs : List (String × Rat)) (code : String) : Rat :=
  ((rs.filter (fun p => decide (p.1 = code))).map Prod.snd).sum

/-- Total rate an edge list records towards `dst` over `proto`. -/
def edgeListRate (es : List GEdge) (dst : GIdentity) (proto : String) : Rat :=
  (es.map (fun e => if e.Target = dst ∧ e.Protocol = proto then e.Rate else 0)).sum

/-- Total response-classification rate an edge list records towards `dst`
over `proto` for one code. -/
def edgeListResponsesRate (es : List GEdge) (dst : GIdentity) (proto code : String) : Rat :=
  (es.map (fun e =>
    if e.Target = dst ∧ e.Protocol = proto then responsesRate e.Responses code else 0)).sum

/-- Number of edges towards `dst` over `proto` in an edge list. -/
def edgeListCount (es : List GEdge) (dst : GIdentity) (proto : String) : Nat :=
  (es.map (fun e => if e.Target = dst ∧ e.Protocol = proto then 1 else 0)).sum

/-- Total rate the map records from `src` to `dst` over `proto` (summed over
all nodes, so duplicated nodes or edges would show up as inflated totals). -/
def edgeRate (tm : List GNode) (src dst : GIdentity) (proto : String) : Rat :=
  (tm.map (fun n => if n.Identity = src then edgeListRate n.Edges dst proto else 0)).sum

/-- Response-classification rate the map records from `src` to `dst` over
`proto` for one classification code. -/
def edgeResponseRate (tm : List GNode) (src dst : GIdentity) (proto code : String) : Rat :=
  (tm.map (fun n =>
    if n.Identity = src then edgeListResponsesRate n.Edges dst proto code else 0)).sum

/-- Number of edges from `src` to `dst` over `proto` in the whole map. -/
def edgeCount (tm : List GNode) (src dst : GIdentity) (proto : String) : Nat :=
  (tm.map (fun n => if n.Identity = src then edgeListCount n.Edges dst proto else 0)).sum

/-- Generic edge measure over one edge list, used to reason about rate and
response-breakdown aggregation uniformly. -/
def edgeListMeasure (μ : GEdge → Rat) (es : List GEdge) (dst : GIdentity) (proto : String) : Rat :=
  (es.map (fun e => if e.Target = dst ∧ e.Protocol = proto then μ e else 0)).sum

/-- Generic edge measure over the whole map. -/
def mapMeasure (μ : GEdge → Rat) (tm : List GNode) (src dst : GIdentity) (proto : String) : Rat :=
  (tm.map (fun n => if n.Identity = src then edgeListMeasure μ n.Edges dst proto else 0)).sum

/-! ## Association-list lemmas -/

theorem assocGet_assocSet_self {κ α : Type} [DecidableEq κ] (m : List (κ × α)) (k : κ) (v : α) :
    assocGet (assocSet m k v) k = some v := by
  induction m with
  | nil => simp [assocSet, assocGet]
  | cons p rest ih =>
    obtain ⟨k', v'⟩ := p
    by_cases h : k' = k
    · simp [assocSet, h, assocGet]
    · simp [assocSet, h, assocGet, ih]

theorem assocGet_assocSet_ne {κ α : Type} [DecidableEq κ] (m : List (κ × α)) (k k' : κ) (v : α)
    (h : k' ≠ k) : assocGet (assocSet m k v) k' = assocGet m k' := by
  have h' : k ≠ k' := Ne.symm h
  induction m with
  | nil => simp [assocSet, assocGet, h']
  | cons p rest ih =>
    obtain ⟨k₀, v₀⟩ := p
    by_cases h0 : k₀ = k
    · subst h0
      simp [assocSet, assocGet, h']
    · simp [assocSet, h0, assocGet, ih]

theorem mem_assocKeys_assocSet {κ α : Type} [DecidableEq κ] (m : List (κ × α)) (k t : κ) (v : α) :
    t ∈ assocKeys (assocSet m k v) ↔ t ∈ assocKeys m ∨ t = k := by
  induction m with
  | nil => simp [assocSet, assocKeys]
  | cons p rest ih =>
    obtain ⟨k₀, v₀⟩ := p
    by_cases h0 : k₀ = k
    · subst h0
      simp [assocSet, assocKeys]
      tauto
    · simp only [assocKeys, List.map_cons, List.mem_cons] at ih ⊢
      rw [show assocSet ((k₀, v₀) :: rest) k v = (k₀, v₀) :: assocSet rest k v by
        simp [assocSet, h0]]
      simp only [List.map_cons, List.mem_cons]
      tauto

theorem nodup_assocKeys_assocSet {κ α : Type} [DecidableEq κ] (m : List (κ × α)) (k : κ) (v : α)
    (h : (assocKeys m).Nodup) : (assocKeys (assocSet m k v)).Nodup := by
  induction m with
  | nil => simp [assocSet, assocKeys]
  | cons p rest ih =>
    obtain ⟨k₀, v₀⟩ := p
    simp only [assocKeys, List.map_cons, List.nodup_cons] at h
    by_cases h0 : k₀ = k
    · subst h0
      simpa [assocSet, assocKeys] using h
    · have := ih h.2
      simp only [assocSet, if_neg h0, assocKeys, List.map_cons, List.nodup_cons]
      refine ⟨?_, this⟩
      intro hmem
      rcases (mem_assocKeys_assocSet rest k k₀ v).1 hmem with hmem' | heq
      · exact h.1 hmem'
      · exact h0 heq

theorem assocKeys_assocModify {κ α : Type} [DecidableEq κ] (m : List (κ × α)) (k : κ)
    (f : α → α) : assocKeys (assocModify m k f) = assocKeys m := by
  induction m with
  | nil => rfl
  | cons p rest ih =>
    by_cases h : p.1 = k <;> simp [assocModify, assocKeys, h] at * <;> simpa using ih

theorem mem_assocSet {κ α : Type} [DecidableEq κ] (m : List (κ × α)) (k : κ) (v : α)
    (p : κ × α) (h : p ∈ assocSet m k v) : p ∈ m ∨ p = (k, v) := by
  induction m with
  | nil => simpa [assocSet] using h
  | cons q rest ih =>
    obtain ⟨k₀, v₀⟩ := q
    by_cases h0 : k₀ = k
    · subst h0
      rcases (by simpa [assocSet] using h : p = (k₀, v) ∨ p ∈ rest) with h1 | h1
      · right; exact h1
      · left; exact List.mem_cons_of_mem _ h1
    · rcases (by simpa [assocSet, h0] using h : p = (k₀, v₀) ∨ p ∈ assocSet rest k v) with h1 | h1
      · left; simp [h1]
      · rcases ih h1 with h2 | h2
        · left; exact List.mem_cons_of_mem _ h2
        · right; exact h2

/-! ## Claim C8: empty traffic map is a no-op -/

/-- Claim C8: running the health appender's `AppendGraph` on an empty traffic
map is a no-op — it returns the map unchanged, performs no external queries
(empty query log), and aborts nothing. -/
theorem AppendGraph_empty_noop (a : HealthAppender) (gi : GlobalInfo) (bs : HealthClient) :
    AppendGraph a gi bs [] = Except.ok ([], []) := rfl

/-! ## Claim C2: node-centric scope validation -/

/-- Claim C2: a node-centric graph request whose options name a number of
namespaces different from exactly one raises the 400-class scope error before
the traffic-map builder (or any collaborator) is consulted — the outcome is
the same for every builder and every client; with exactly one namespace (and
the istio vendor and a healthy client), the builder runs: its output is what
`generateGraph` projects, and its error is what aborts the request. -/
theorem GraphNode_scope_check (o : Options) (nc : Except KialiError Unit)
    (bld bld' : Options → Except KialiError TrafficMap)
    (project : TrafficMap → TrafficMap) (generated : TrafficMap) :
    (o.Namespaces.length ≠ 1 →
      GraphNode o nc bld project generated =
        Except.error (graphScopeError "Node graph does not support the namespaces query parameter or the all namespace") ∧
      (graphScopeError "Node graph does not support the namespaces query parameter or the all namespace").Code = 400 ∧
      GraphNode o nc bld project generated = GraphNode o nc bld' project generated) ∧
    (o.Namespaces.length = 1 → o.TelemetryVendor = "istio" → nc = Except.ok () →
      (∀ tm, bld o = Except.ok tm →
        GraphNode o nc bld project generated = generateGraph project generated tm o) ∧
      (∀ e, bld o = Except.error e →
        GraphNode o nc bld project generated = Except.error (checkErrorPanic e))) := by
  constructor
  · intro h
    refine ⟨?_, rfl, ?_⟩ <;> simp [GraphNode, h]
  · intro h1 h2 h3
    constructor
    · intro tm htm
      simp [GraphNode, h1, h2, h3, htm]
    · intro e he
      simp [GraphNode, h1, h2, h3, he]

/-- Claim C2 witness: the theorem applied at concrete inputs discharging both
hypothesis branches. -/
theorem GraphNode_scope_check_witness :
    (GraphNode ⟨["a", "b"], "istio", "cytoscape"⟩ (Except.ok ()) (fun _ => Except.ok []) id [] =
      Except.error (graphScopeError "Node graph does not support the namespaces query parameter or the all namespace")) ∧
    (GraphNode ⟨["a"], "istio", "cytoscape"⟩ (Except.ok ()) (fun _ => Except.ok []) id [] =
      generateGraph id [] [] ⟨["a"], "istio", "cytoscape"⟩) := by
  constructor
  · exact ((GraphNode_scope_check ⟨["a", "b"], "istio", "cytoscape"⟩ (Except.ok ())
      (fun _ => Except.ok []) (fun _ => Except.ok []) id []).1 (by decide)).1
  · exact ((GraphNode_scope_check ⟨["a"], "istio", "cytoscape"⟩ (Except.ok ())
      (fun _ => Except.ok []) (fun _ => Except.ok []) id []).2 (by decide) rfl rfl).1 [] rfl

/-! ## Claim C9: namespace service health is total with fixed keys -/

theorem mem_assocKeys_foldl_assocSet {κ α β : Type} [DecidableEq κ] (key : α → κ) (g : α → β)
    (l : List α) (init : List (κ × β)) (t : κ) :
    t ∈ assocKeys (l.foldl (fun m x => assocSet m (key x) (g x)) init) ↔
      t ∈ assocKeys init ∨ t ∈ l.map key := by
  induction l generalizing init with
  | nil => simp
  | cons x rest ih =>
    simp only [List.foldl_cons, List.map_cons, List.mem_cons]
    rw [ih]
    rw [mem_assocKeys_assocSet]
    tauto

theorem nodup_assocKeys_foldl_assocSet {κ α β : Type} [DecidableEq κ] (key : α → κ) (g : α → β)
    (l : List α) (init : List (κ × β)) (h : (assocKeys init).Nodup) :
    (assocKeys (l.foldl (fun m x => assocSet m (key x) (g x)) init)).Nodup := by
  induction l generalizing init with
  | nil => exact h
  | cons x rest ih => exact ih _ (nodup_assocKeys_assocSet _ _ _ h)

theorem mem_foldl_assocSet {κ α β : Type} [DecidableEq κ] (key : α → κ) (g : α → β)
    (l : List α) (init : List (κ × β)) (p : κ × β)
    (h : p ∈ l.foldl (fun m x => assocSet m (key x) (g x)) init) :
    p ∈ init ∨ ∃ x ∈ l, p = (key x, g x) := by
  induction l generalizing init with
  | nil => exact Or.inl h
  | cons x rest ih =>
    rcases ih _ h with h1 | h1
    · rcases mem_assocSet _ _ _ _ h1 with h2 | h2
      · exact Or.inl h2
      · exact Or.inr ⟨x, List.mem_cons_self x rest, h2⟩
    · obtain ⟨x', hx', hp⟩ := h1
      exact Or.inr ⟨x', List.mem_cons_of_mem _ hx', hp⟩

theorem assocKeys_map_snd {κ α β : Type} (l : List (κ × α)) (g : κ × α → β) :
    assocKeys (l.map (fun p => (p.1, g p))) = assocKeys l := by
  induction l with
  | nil => rfl
  | cons p rest ih =>
    simp only [assocKeys, List.map_cons] at ih ⊢
    rw [ih]

theorem assocKeys_nsServiceFill (rates : List Sample) (m : List (String × ServiceHealth)) :
    assocKeys (rates.foldl nsServiceFillStep m) = assocKeys m := by
  induction rates generalizing m with
  | nil => rfl
  | cons s rest ih =>
    rw [List.foldl_cons, ih]
    unfold nsServiceFillStep
    rcases hh : assocGet m (lookupLabel s "destination_service_name") with _ | h
    · simp [hh]
    · simp [hh, assocKeys_assocModify]

theorem assocKeys_getNamespaceServiceHealth (services : Option ServiceList)
    (ratesResult : Except KialiError (List Sample)) :
    assocKeys (getNamespaceServiceHealth services ratesResult) =
      assocKeys (nsServiceHealthInit services) := by
  unfold getNamespaceServiceHealth
  cases ratesResult with
  | error e => simp [assocKeys_map_snd, assocKeys_nsServiceFill]
  | ok v => simp [assocKeys_map_snd, assocKeys_nsServiceFill]

/-- Claim C9: `getNamespaceServiceHealth` is total on every service list
(including nil) and on every metrics-query outcome; its key set is exactly the
listed service names (one entry per name, no duplicates), the keys do not
depend on the rate samples — so samples whose destination service matches no
listed service are dropped, never added as new keys — and on a metrics-query
error the entries carry empty request rates. -/
theorem getNamespaceServiceHealth_total (services : Option ServiceList)
    (ratesResult : Except KialiError (List Sample)) (e : KialiError) (s : String) :
    ((assocKeys (getNamespaceServiceHealth services ratesResult)).Nodup) ∧
    (s ∈ assocKeys (getNamespaceServiceHealth services ratesResult) ↔ s ∈ serviceNames services) ∧
    (assocKeys (getNamespaceServiceHealth services ratesResult) =
      assocKeys (getNamespaceServiceHealth services (Except.ok []))) ∧
    (∀ p ∈ getNamespaceServiceHealth services (Except.error e),
      p.2.Requests.Inbound = [] ∧ p.2.Requests.Outbound = []) := by
  refine ⟨?_, ?_, ?_, ?_⟩
  · rw [assocKeys_getNamespaceServiceHealth]
    cases services with
    | none => simp [nsServiceHealthInit, assocKeys]
    | some sl =>
      exact nodup_assocKeys_foldl_assocSet Service.Name serviceHealthEntry sl.Services [] (by simp [assocKeys])
  · rw [assocKeys_getNamespaceServiceHealth]
    cases services with
    | none => simp [nsServiceHealthInit, serviceNames, assocKeys]
    | some sl =>
      unfold nsServiceHealthInit serviceNames
      rw [mem_assocKeys_foldl_assocSet Service.Name serviceHealthEntry sl.Services []]
      simp [assocKeys]
  · rw [assocKeys_getNamespaceServiceHealth, assocKeys_getNamespaceServiceHealth]
  · intro p hp
    unfold getNamespaceServiceHealth at hp
    simp only [List.foldl_nil, List.mem_map] at hp
    obtain ⟨q, hq, hpq⟩ := hp
    have hq' : q.2.Requests.Inbound = [] ∧ q.2.Requests.Outbound = [] := by
      cases services with
      | none => simp [nsServiceHealthInit] at hq
      | some sl =>
        rcases mem_foldl_assocSet Service.Name serviceHealthEntry sl.Services [] q
          (by simpa [nsServiceHealthInit] using hq) with h1 | h1
        · simp at h1
        · obtain ⟨svc, _, hq2⟩ := h1
          subst hq2
          exact ⟨rfl, rfl⟩
    rw [← hpq]
    exact hq'

/-! ## Claim C10: sidecar-free inputs perform no request-rate query -/

theorem foldl_prod {α γ δ : Type} (f : γ → α → γ) (g : δ → α → δ) (l : List α) (c : γ) (d : δ) :
    l.foldl (fun acc a => (f acc.1 a, g acc.2 a)) (c, d) = (l.foldl f c, l.foldl g d) := by
  induction l generalizing c d with
  | nil => rfl
  | cons a t ih => simp [List.foldl_cons, ih]

theorem foldl_or_any {α : Type} (p : α → Bool) (l : List α) (b : Bool) :
    l.foldl (fun acc a => acc || p a) b = (b || l.any p) := by
  induction l generalizing b with
  | nil => simp
  | cons a t ih => simp [List.foldl_cons, ih, Bool.or_assoc]

theorem assocGet_foldl_assocSet_frame {κ α β : Type} [DecidableEq κ] (key : α → κ) (g : α → β)
    (l : List α) (init : List (κ × β)) (k : κ) (h : ∀ x ∈ l, key x ≠ k) :
    assocGet (l.foldl (fun m x => assocSet m (key x) (g x)) init) k = assocGet init k := by
  induction l generalizing init with
  | nil => rfl
  | cons x t ih =>
    rw [List.foldl_cons, ih _ (fun y hy => h y (List.mem_cons_of_mem _ hy))]
    exact assocGet_assocSet_ne _ _ _ _ (Ne.symm (h x (List.mem_cons_self x t)))

theorem assocGet_foldl_assocSet_mem {κ α β : Type} [DecidableEq κ] (key : α → κ) (g : α → β)
    (l : List α) : ∀ (init : List (κ × β)) (k : κ), (∃ x ∈ l, key x = k) →
    ∃ x' ∈ l, key x' = k ∧
      assocGet (l.foldl (fun m x => assocSet m (key x) (g x)) init) k = some (g x') := by
  induction l with
  | nil =>
    intro init k hex
    obtain ⟨x, hx, _⟩ := hex
    simp at hx
  | cons x t ih =>
    intro init k hex
    by_cases ht : ∃ y ∈ t, key y = k
    · obtain ⟨x', hx', hk', hget⟩ := ih (assocSet init (key x) (g x)) k ht
      exact ⟨x', List.mem_cons_of_mem _ hx', hk', by simpa using hget⟩
    · push_neg at ht
      have hx : key x = k := by
        obtain ⟨y, hy, hk⟩ := hex
        rcases List.mem_cons.mp hy with h1 | h1
        · subst h1; exact hk
        · exact absurd hk (ht y h1)
      refine ⟨x, List.mem_cons_self x t, hx, ?_⟩
      rw [List.foldl_cons, assocGet_foldl_assocSet_frame key g t _ k ht]
      rw [← hx, assocGet_assocSet_self]

theorem appStepMap_foldl_frame (l : List (String × Option AppDetails))
    (init : List (String × AppHealth)) (k : String)
    (h : ∀ p ∈ l, p.1 = "" ∨ p.1 ≠ k) :
    assocGet (l.foldl appStepMap init) k = assocGet init k := by
  induction l generalizing init with
  | nil => rfl
  | cons p t ih =>
    rw [List.foldl_cons, ih _ (fun q hq => h q (List.mem_cons_of_mem _ hq))]
    unfold appStepMap
    by_cases hp : p.1 ≠ ""
    · rw [if_pos hp]
      rcases h p (List.mem_cons_self p t) with h1 | h1
      · exact absurd h1 hp
      · exact assocGet_assocSet_ne _ _ _ _ (Ne.symm h1)
    · rw [if_neg hp]

theorem appStepMap_foldl_mem (l : List (String × Option AppDetails)) :
    ∀ (init : List (String × AppHealth)) (k : String), (∃ p ∈ l, p.1 ≠ "" ∧ p.1 = k) →
    ∃ p' ∈ l, p'.1 ≠ "" ∧ p'.1 = k ∧
      assocGet (l.foldl appStepMap init) k = some (appHealthEntry p') := by
  induction l with
  | nil =>
    intro init k hex
    obtain ⟨p, hp, _⟩ := hex
    simp at hp
  | cons p t ih =>
    intro init k hex
    by_cases ht : ∃ q ∈ t, q.1 ≠ "" ∧ q.1 = k
    · obtain ⟨p', hp', hne, hk', hget⟩ := ih (appStepMap init p) k ht
      exact ⟨p', List.mem_cons_of_mem _ hp', hne, hk', by simpa using hget⟩
    · push_neg at ht
      have hp : p.1 ≠ "" ∧ p.1 = k := by
        obtain ⟨q, hq, hq1, hq2⟩ := hex
        rcases List.mem_cons.mp hq with h1 | h1
        · subst h1; exact ⟨hq1, hq2⟩
        · exact absurd hq2 (ht q h1 hq1)
      refine ⟨p, List.mem_cons_self p t, hp.1, hp.2, ?_⟩
      rw [List.foldl_cons, appStepMap_foldl_frame t _ k (fun q hq => by
        by_cases hq1 : q.1 = ""
        · exact Or.inl hq1
        · exact Or.inr (fun hqk => ht q hq hq1 hqk))]
      unfold appStepMap
      rw [if_pos hp.1, ← hp.2, assocGet_assocSet_self]

theorem foldl_appStepSidecar_false (l : List (String × Option AppDetails))
    (h : ∀ p ∈ l, ∀ d, p.2 = some d → ∀ w ∈ d.Workloads, w.IstioSidecar = false) :
    l.foldl appStepSidecar false = false := by
  induction l with
  | nil => rfl
  | cons p t ih =>
    have hstep : appStepSidecar false p = false := by
      unfold appStepSidecar
      by_cases hp : p.1 ≠ ""
      · rw [if_pos hp]
        rcases hq : p.2 with _ | d
        · rfl
        · simp only [Bool.false_or]
          rw [List.any_eq_false]
          intro w hw
          simp [h p (List.mem_cons_self p t) d hq w hw]
      · rw [if_neg hp]
    rw [List.foldl_cons, hstep]
    exact ih (fun q hq => h q (List.mem_cons_of_mem _ hq))

/-- Claim C10: when no workload of the input carries an Istio sidecar,
`getNamespaceWorkloadHealth`, `getNamespaceAppHealth` and `getAppHealth` skip
the request-rate metrics query: the query flag is false, no error is reported,
the result is the same for every metrics outcome, and the returned maps still
hold one entry per workload/app with the workload status populated and the
request health empty. -/
theorem noSidecar_no_metrics_query (ws : List Workload)
    (appEntities : List (String × Option AppDetails))
    (r1 r2 r3 r4 : Except KialiError (List Sample))
    (rp1 rp2 : Except KialiError (List Sample × List Sample))
    (hw : ∀ w ∈ ws, w.IstioSidecar = false)
    (ha : ∀ p ∈ appEntities, ∀ d, p.2 = some d → ∀ w ∈ d.Workloads, w.IstioSidecar = false) :
    (getNamespaceWorkloadHealth ws r1 = getNamespaceWorkloadHealth ws r2) ∧
    ((getNamespaceWorkloadHealth ws r1).2.2 = false) ∧
    ((getNamespaceWorkloadHealth ws r1).2.1 = none) ∧
    (∀ w ∈ ws, ∃ w', w' ∈ ws ∧ w'.Name = w.Name ∧
      assocGet (getNamespaceWorkloadHealth ws r1).1 w.Name = some (workloadHealthEntry w')) ∧
    (∀ w' : Workload, (workloadHealthEntry w').Requests.Inbound = [] ∧
      (workloadHealthEntry w').Requests.Outbound = [] ∧
      (workloadHealthEntry w').WorkloadStatus = w'.CastWorkloadStatus) ∧
    (getNamespaceAppHealth appEntities r3 = getNamespaceAppHealth appEntities r4) ∧
    ((getNamespaceAppHealth appEntities r3).2.2 = false) ∧
    ((getNamespaceAppHealth appEntities r3).2.1 = none) ∧
    (∀ p ∈ appEntities, p.1 ≠ "" → ∃ p', p' ∈ appEntities ∧ p'.1 = p.1 ∧
      assocGet (getNamespaceAppHealth appEntities r3).1 p.1 = some (appHealthEntry p')) ∧
    (∀ p' : String × Option AppDetails, (appHealthEntry p').Requests = NewEmptyRequestHealth ∧
      (appHealthEntry p').WorkloadStatuses =
        (match p'.2 with
          | some d => CastWorkloadStatuses d.Workloads
          | none => [])) ∧
    (getAppHealth ws rp1 = getAppHealth ws rp2) ∧
    (getAppHealth ws rp1 =
      ({ EmptyAppHealth with WorkloadStatuses := CastWorkloadStatuses ws }, none, false)) := by
  have hany : ws.any Workload.IstioSidecar = false := by
    rw [List.any_eq_false]
    intro w hwmem
    simp [hw w hwmem]
  have hwk : ∀ r, getNamespaceWorkloadHealth ws r =
      (ws.foldl (fun m w => assocSet m w.Name (workloadHealthEntry w)) [], none, false) := by
    intro r
    unfold getNamespaceWorkloadHealth
    rw [foldl_prod (fun m w => assocSet m w.Name (workloadHealthEntry w))
      (fun b w => b || w.IstioSidecar) ws [] false]
    rw [foldl_or_any Workload.IstioSidecar ws false]
    simp [hany]
  have happarg : appEntities.foldl appStepSidecar false = false :=
    foldl_appStepSidecar_false appEntities ha
  have happ : ∀ r, getNamespaceAppHealth appEntities r =
      (appEntities.foldl appStepMap [], none, false) := by
    intro r
    unfold getNamespaceAppHealth
    rw [foldl_prod appStepMap appStepSidecar appEntities [] false]
    simp [happarg]
  have hgapp : ∀ r, getAppHealth ws r =
      ({ EmptyAppHealth with WorkloadStatuses := CastWorkloadStatuses ws }, none, false) := by
    intro r
    unfold getAppHealth
    rw [hany]
    simp
  refine ⟨by rw [hwk r1, hwk r2], by rw [hwk r1], by rw [hwk r1], ?_, ?_, by rw [happ r3, happ r4],
    by rw [happ r3], by rw [happ r3], ?_, ?_, by rw [hgapp rp1, hgapp rp2], hgapp rp1⟩
  · intro w hwmem
    obtain ⟨w', hw', hk', hget⟩ :=
      assocGet_foldl_assocSet_mem Workload.Name workloadHealthEntry ws [] w.Name
        ⟨w, hwmem, rfl⟩
    refine ⟨w', hw', hk', ?_⟩
    rw [hwk r1]
    exact hget
  · intro w'
    exact ⟨rfl, rfl, rfl⟩
  · intro p hp hpne
    obtain ⟨p', hp', hne, hk', hget⟩ :=
      appStepMap_foldl_mem appEntities [] p.1 ⟨p, hp, hpne, rfl⟩
    refine ⟨p', hp', hk', ?_⟩
    rw [happ r3]
    exact hget
  · intro p'
    refine ⟨?_, ?_⟩ <;> rcases p' with ⟨nm, _ | d⟩ <;> rfl

/-- Claim C10 witness: the theorem applied at a concrete sidecar-free
workload set and app-entity map. -/
theorem noSidecar_no_metrics_query_witness :
    (getNamespaceWorkloadHealth [⟨"w1", false, [], 1, 1, 1⟩] (Except.error (KialiError.queryFailure "down")) =
      getNamespaceWorkloadHealth [⟨"w1", false, [], 1, 1, 1⟩] (Except.ok [])) ∧
    (getAppHealth [⟨"w1", false, [], 1, 1, 1⟩] (Except.error (KialiError.queryFailure "down")) =
      ({ EmptyAppHealth with WorkloadStatuses := CastWorkloadStatuses [⟨"w1", false, [], 1, 1, 1⟩] },
        none, false)) := by
  have h := noSidecar_no_metrics_query [⟨"w1", false, [], 1, 1, 1⟩]
    [("a1", some ⟨[⟨"w1", false, [], 1, 1, 1⟩]⟩)]
    (Except.error (KialiError.queryFailure "down")) (Except.ok [])
    (Except.ok []) (Except.ok [])
    (Except.error (KialiError.queryFailure "down")) (Except.ok ([], []))
    (by intro w hw; simp at hw; simp [hw])
    (by
      intro p hp d hd w hw
      simp at hp
      rw [hp] at hd
      simp at hd
      rw [← hd] at hw
      simp at hw
      simp [hw])
  exact ⟨h.1, h.2.2.2.2.2.2.2.2.2.2.2⟩

/-! ## Claim C3: builder deduplication and aggregation -/

theorem hasIdentity_iff (tm : List GNode) (id : GIdentity) :
    hasIdentity tm id = true ↔ id ∈ gIdentities tm := by
  induction tm with
  | nil => simp [hasIdentity, gIdentities]
  | cons n rest ih =>
    by_cases h : n.Identity = id
    · simp [hasIdentity, h, gIdentities]
    · simp only [hasIdentity, if_neg h, gIdentities, List.map_cons, List.mem_cons]
      rw [show (gIdentities rest = rest.map GNode.Identity) from rfl] at ih
      rw [ih]
      have : ¬ id = n.Identity := fun hh => h hh.symm
      tauto

theorem gIdentities_upsertNode (tm : List GNode) (id : GIdentity) :
    gIdentities (upsertNode tm id) =
      if hasIdentity tm id then gIdentities tm else gIdentities tm ++ [id] := by
  by_cases h : hasIdentity tm id <;> simp [upsertNode, h, gIdentities]

theorem gIdentities_applySampleEdges (tm : List GNode) (s : RawSample) :
    gIdentities (applySampleEdges tm s) = gIdentities tm := by
  induction tm with
  | nil => rfl
  | cons n rest ih =>
    simp only [applySampleEdges, List.map_cons] at ih ⊢
    by_cases h : n.Identity = s.Source <;>
      simp only [gIdentities, List.map_cons, if_pos, if_neg, h, ite_true, ite_false] <;>
      simp only [gIdentities, List.map_cons] at ih <;> rw [ih]

theorem gIdentities_buildStep (tm : List GNode) (s : RawSample) :
    gIdentities (buildStep tm s) =
      gIdentities (upsertNode (upsertNode tm s.Source) s.Dest) := by
  unfold buildStep
  exact gIdentities_applySampleEdges _ _

theorem nodup_gIdentities_upsertNode (tm : List GNode) (id : GIdentity)
    (h : (gIdentities tm).Nodup) : (gIdentities (upsertNode tm id)).Nodup := by
  rw [gIdentities_upsertNode]
  by_cases hh : hasIdentity tm id
  · simp [hh, h]
  · have hnm : id ∉ gIdentities tm := fun hmem => hh ((hasIdentity_iff tm id).mpr hmem)
    simp [hh, List.nodup_append, h, hnm]

theorem mem_gIdentities_upsertNode_self (tm : List GNode) (id : GIdentity) :
    id ∈ gIdentities (upsertNode tm id) := by
  rw [gIdentities_upsertNode]
  by_cases hh : hasIdentity tm id
  · simp only [if_pos hh]
    exact (hasIdentity_iff tm id).mp hh
  · simp [hh]

theorem mem_gIdentities_upsertNode_mono (tm : List GNode) (id t : GIdentity)
    (h : t ∈ gIdentities tm) : t ∈ gIdentities (upsertNode tm id) := by
  rw [gIdentities_upsertNode]
  by_cases hh : hasIdentity tm id <;> simp [hh, h]

theorem nodup_gIdentities_buildStep (tm : List GNode) (s : RawSample)
    (h : (gIdentities tm).Nodup) : (gIdentities (buildStep tm s)).Nodup := by
  rw [gIdentities_buildStep]
  exact nodup_gIdentities_upsertNode _ _ (nodup_gIdentities_upsertNode _ _ h)

theorem mem_gIdentities_buildStep_mono (tm : List GNode) (s : RawSample) (t : GIdentity)
    (h : t ∈ gIdentities tm) : t ∈ gIdentities (buildStep tm s) := by
  rw [gIdentities_buildStep]
  exact mem_gIdentities_upsertNode_mono _ _ _ (mem_gIdentities_upsertNode_mono _ _ _ h)

theorem mem_gIdentities_buildStep_sample (tm : List GNode) (s : RawSample) :
    s.Source ∈ gIdentities (buildStep tm s) ∧ s.Dest ∈ gIdentities (buildStep tm s) := by
  rw [gIdentities_buildStep]
  exact ⟨mem_gIdentities_upsertNode_mono _ _ _ (mem_gIdentities_upsertNode_self _ _),
    mem_gIdentities_upsertNode_self _ _⟩

theorem nodup_gIdentities_foldl_buildStep (samples : List RawSample) :
    ∀ tm : List GNode, (gIdentities tm).Nodup →
      (gIdentities (samples.foldl buildStep tm)).Nodup := by
  induction samples with
  | nil => intro tm h; exact h
  | cons s rest ih =>
    intro tm h
    exact ih _ (nodup_gIdentities_buildStep tm s h)

theorem mem_gIdentities_foldl_buildStep_mono (samples : List RawSample) :
    ∀ (tm : List GNode) (t : GIdentity), t ∈ gIdentities tm →
      t ∈ gIdentities (samples.foldl buildStep tm) := by
  induction samples with
  | nil => intro tm t h; exact h
  | cons s rest ih =>
    intro tm t h
    exact ih _ _ (mem_gIdentities_buildStep_mono tm s t h)

theorem sample_mem_gIdentities_foldl_buildStep (samples : List RawSample) :
    ∀ (tm : List GNode) (s : RawSample), s ∈ samples →
      s.Source ∈ gIdentities (samples.foldl buildStep tm) ∧
      s.Dest ∈ gIdentities (samples.foldl buildStep tm) := by
  induction samples with
  | nil => intro tm s h; simp at h
  | cons s0 rest ih =>
    intro tm s h
    rcases List.mem_cons.mp h with h1 | h1
    · subst h1
      rw [List.foldl_cons]
      exact ⟨mem_gIdentities_foldl_buildStep_mono rest _ _ (mem_gIdentities_buildStep_sample tm s).1,
        mem_gIdentities_foldl_buildStep_mono rest _ _ (mem_gIdentities_buildStep_sample tm s).2⟩
    · rw [List.foldl_cons]
      exact ih _ s h1

theorem sampleMatches_iff (s : RawSample) (src dst : GIdentity) (proto : String) :
    sampleMatches s src dst proto = true ↔
      s.Source = src ∧ s.Dest = dst ∧ s.Protocol = proto := by
  unfold sampleMatches
  by_cases h1 : s.Source = src <;> by_cases h2 : s.Dest = dst <;>
    by_cases h3 : s.Protocol = proto <;> simp [h1, h2, h3]

theorem edgeListMeasure_nil (μ : GEdge → Rat) (dst : GIdentity) (proto : String) :
    edgeListMeasure μ [] dst proto = 0 := rfl

theorem edgeListMeasure_cons (μ : GEdge → Rat) (e : GEdge) (es : List GEdge)
    (dst : GIdentity) (proto : String) :
    edgeListMeasure μ (e :: es) dst proto =
      (if e.Target = dst ∧ e.Protocol = proto then μ e else 0) +
        edgeListMeasure μ es dst proto := by
  simp [edgeListMeasure]

theorem mapMeasure_cons (μ : GEdge → Rat) (n : GNode) (tm : List GNode)
    (src dst : GIdentity) (proto : String) :
    mapMeasure μ (n :: tm) src dst proto =
      (if n.Identity = src then edgeListMeasure μ n.Edges dst proto else 0) +
        mapMeasure μ tm src dst proto := by
  simp [mapMeasure]

theorem mapMeasure_append (μ : GEdge → Rat) (tm1 tm2 : List GNode)
    (src dst : GIdentity) (proto : String) :
    mapMeasure μ (tm1 ++ tm2) src dst proto =
      mapMeasure μ tm1 src dst proto + mapMeasure μ tm2 src dst proto := by
  simp [mapMeasure]

theorem mapMeasure_upsertNode (μ : GEdge → Rat) (tm : List GNode) (id : GIdentity)
    (src dst : GIdentity) (proto : String) :
    mapMeasure μ (upsertNode tm id) src dst proto = mapMeasure μ tm src dst proto := by
  unfold upsertNode
  by_cases h : hasIdentity tm id
  · simp [h]
  · simp [h, mapMeasure_append, mapMeasure, edgeListMeasure]

theorem edgeListMeasure_addEdge (μ : GEdge → Rat) (ν : Rat) (tgt : GIdentity) (proto : String)
    (rate : Rat) (resp : List (String × Rat))
    (hmerge : ∀ e : GEdge, e.Target = tgt → e.Protocol = proto →
      μ ⟨tgt, proto, e.Rate + rate, mergeResponses e.Responses resp⟩ = μ e + ν)
    (hnew : μ ⟨tgt, proto, rate, resp⟩ = ν)
    (es : List GEdge) (dst : GIdentity) (qp : String) :
    edgeListMeasure μ (addEdge es tgt proto rate resp) dst qp =
      edgeListMeasure μ es dst qp + (if tgt = dst ∧ proto = qp then ν else 0) := by
  induction es with
  | nil =>
    rw [show addEdge [] tgt proto rate resp = [⟨tgt, proto, rate, resp⟩] from rfl]
    rw [edgeListMeasure_cons]
    by_cases hq : tgt = dst ∧ proto = qp
    · rw [← hq.1, ← hq.2]
      simp [hnew, edgeListMeasure]
    · simp [hq, edgeListMeasure]
  | cons e rest ih =>
    unfold addEdge
    by_cases h : e.Target = tgt ∧ e.Protocol = proto
    · rw [if_pos h]
      rw [edgeListMeasure_cons, edgeListMeasure_cons]
      rw [hmerge e h.1 h.2]
      rw [h.1, h.2]
      by_cases hq : tgt = dst ∧ proto = qp
      · simp only [if_pos hq]
        ring
      · simp only [if_neg hq]
        ring
    · rw [if_neg h]
      rw [edgeListMeasure_cons, edgeListMeasure_cons, ih]
      ring

theorem applySampleEdges_of_not_source (tm : List GNode) (s : RawSample)
    (h : ∀ n ∈ tm, n.Identity ≠ s.Source) : applySampleEdges tm s = tm := by
  induction tm with
  | nil => rfl
  | cons n rest ih =>
    simp only [applySampleEdges, List.map_cons] at ih ⊢
    rw [if_neg (h n (List.mem_cons_self n rest))]
    rw [ih (fun m hm => h m (List.mem_cons_of_mem _ hm))]

theorem applySampleEdges_mapMeasure (μ : GEdge → Rat) (σ : Rat) (s : RawSample)
    (haddEdge : ∀ (es : List GEdge) (dst : GIdentity) (qp : String),
      edgeListMeasure μ (addEdge es s.Dest s.Protocol s.Rate s.Responses) dst qp =
        edgeListMeasure μ es dst qp + (if s.Dest = dst ∧ s.Protocol = qp then σ else 0))
    (src dst : GIdentity) (proto : String) :
    ∀ tm : List GNode, (gIdentities tm).Nodup → s.Source ∈ gIdentities tm →
      mapMeasure μ (applySampleEdges tm s) src dst proto =
        mapMeasure μ tm src dst proto +
          (if sampleMatches s src dst proto then σ else 0) := by
  intro tm
  induction tm with
  | nil =>
    intro _ hmem
    simp [gIdentities] at hmem
  | cons n rest ih =>
    intro hnd hmem
    have hnd' : n.Identity ∉ rest.map GNode.Identity ∧ (rest.map GNode.Identity).Nodup :=
      List.nodup_cons.mp (by simpa [gIdentities] using hnd)
    have hndrest : (gIdentities rest).Nodup := by simpa [gIdentities] using hnd'.2
    by_cases hn : n.Identity = s.Source
    · have hout : s.Source ∉ gIdentities rest := by
        have := hnd'.1
        rw [hn] at this
        simpa [gIdentities] using this
      have hrest : applySampleEdges rest s = rest :=
        applySampleEdges_of_not_source rest s
          (fun m hm hms => hout (by simpa [gIdentities, ← hms] using List.mem_map_of_mem GNode.Identity hm))
      simp only [applySampleEdges, List.map_cons, if_pos hn]
      rw [show (rest.map (fun n => if n.Identity = s.Source then
          { n with Edges := addEdge n.Edges s.Dest s.Protocol s.Rate s.Responses } else n)
            = applySampleEdges rest s) from rfl, hrest]
      rw [mapMeasure_cons, mapMeasure_cons]
      have hproj : ({ n with Edges := addEdge n.Edges s.Dest s.Protocol s.Rate s.Responses } : GNode).Identity = n.Identity := rfl
      have hedges : ({ n with Edges := addEdge n.Edges s.Dest s.Protocol s.Rate s.Responses } : GNode).Edges = addEdge n.Edges s.Dest s.Protocol s.Rate s.Responses := rfl
      rw [hproj, hedges]
      by_cases hsrc : n.Identity = src
      · have hssrc : s.Source = src := hn ▸ hsrc
        rw [if_pos hsrc, if_pos hsrc]
        rw [haddEdge n.Edges dst proto]
        have hdelta : (if sampleMatches s src dst proto then σ else 0) =
            (if s.Dest = dst ∧ s.Protocol = proto then σ else 0) := by
          by_cases hq : s.Dest = dst ∧ s.Protocol = proto
          · rw [if_pos hq, if_pos ((sampleMatches_iff s src dst proto).mpr ⟨hssrc, hq.1, hq.2⟩)]
          · rw [if_neg hq, if_neg ?_]
            intro hsm
            exact hq ⟨((sampleMatches_iff s src dst proto).mp hsm).2.1,
              ((sampleMatches_iff s src dst proto).mp hsm).2.2⟩
        rw [hdelta]
        ring
      · have hssrc : s.Source ≠ src := hn ▸ hsrc
        have hsm : sampleMatches s src dst proto = false := by
          rcases hh : sampleMatches s src dst proto with _ | _
          · rfl
          · exact absurd ((sampleMatches_iff s src dst proto).mp hh).1 hssrc
        rw [if_neg hsrc, if_neg hsrc, hsm]
        simp only [Bool.false_eq_true, if_false]
        ring
    · have hmem' : s.Source ∈ gIdentities rest := by
        rcases (by simpa [gIdentities] using hmem : s.Source = n.Identity ∨ s.Source ∈ rest.map GNode.Identity) with h1 | h1
        · exact absurd h1.symm hn
        · simpa [gIdentities] using h1
      simp only [applySampleEdges, List.map_cons, if_neg hn]
      rw [show (rest.map (fun n => if n.Identity = s.Source then
          { n with Edges := addEdge n.Edges s.Dest s.Protocol s.Rate s.Responses } else n)
            = applySampleEdges rest s) from rfl]
      rw [mapMeasure_cons, mapMeasure_cons, ih hndrest hmem']
      ring

theorem buildStep_mapMeasure (μ : GEdge → Rat) (σ : RawSample → Rat)
    (haddEdge : ∀ (s : RawSample) (es : List GEdge) (dst : GIdentity) (qp : String),
      edgeListMeasure μ (addEdge es s.Dest s.Protocol s.Rate s.Responses) dst qp =
        edgeListMeasure μ es dst qp + (if s.Dest = dst ∧ s.Protocol = qp then σ s else 0))
    (tm : List GNode) (s : RawSample) (src dst : GIdentity) (proto : String)
    (hnd : (gIdentities tm).Nodup) :
    mapMeasure μ (buildStep tm s) src dst proto =
      mapMeasure μ tm src dst proto + (if sampleMatches s src dst proto then σ s else 0) := by
  unfold buildStep
  have h2 : (gIdentities (upsertNode (upsertNode tm s.Source) s.Dest)).Nodup :=
    nodup_gIdentities_upsertNode _ _ (nodup_gIdentities_upsertNode _ _ hnd)
  have hmem : s.Source ∈ gIdentities (upsertNode (upsertNode tm s.Source) s.Dest) :=
    mem_gIdentities_upsertNode_mono _ _ _ (mem_gIdentities_upsertNode_self _ _)
  rw [applySampleEdges_mapMeasure μ (σ s) s (haddEdge s) src dst proto _ h2 hmem]
  rw [mapMeasure_upsertNode, mapMeasure_upsertNode]

theorem foldl_buildStep_mapMeasure (μ : GEdge → Rat) (σ : RawSample → Rat)
    (haddEdge : ∀ (s : RawSample) (es : List GEdge) (dst : GIdentity) (qp : String),
      edgeListMeasure μ (addEdge es s.Dest s.Protocol s.Rate s.Responses) dst qp =
        edgeListMeasure μ es dst qp + (if s.Dest = dst ∧ s.Protocol = qp then σ s else 0))
    (src dst : GIdentity) (proto : String) (samples : List RawSample) :
    ∀ tm : List GNode, (gIdentities tm).Nodup →
      mapMeasure μ (samples.foldl buildStep tm) src dst proto =
        mapMeasure μ tm src dst proto +
          ((samples.filter (fun s => sampleMatches s src dst proto)).map σ).sum := by
  induction samples with
  | nil => intro tm _; simp
  | cons s rest ih =>
    intro tm hnd
    rw [List.foldl_cons, ih _ (nodup_gIdentities_buildStep tm s hnd)]
    rw [buildStep_mapMeasure μ σ haddEdge tm s src dst proto hnd]
    rcases hh : sampleMatches s src dst proto with _ | _
    · simp only [List.filter_cons, hh, Bool.false_eq_true, if_false]
      ring
    · simp only [List.filter_cons, hh, if_true, List.map_cons, List.sum_cons]
      ring

theorem responsesRate_cons (k0 : String) (v0 : Rat) (rest : List (String × Rat)) (code : String) :
    responsesRate ((k0, v0) :: rest) code =
      (if k0 = code then v0 else 0) + responsesRate rest code := by
  by_cases h : k0 = code <;> simp [responsesRate, h]

theorem responsesRate_append (rs rs' : List (String × Rat)) (code : String) :
    responsesRate (rs ++ rs') code = responsesRate rs code + responsesRate rs' code := by
  simp [responsesRate, List.filter_append]

theorem responsesRate_assocSet_add (rs : List (String × Rat)) :
    ∀ (k : String) (v r : Rat), assocGet rs k = some r → ∀ code : String,
      responsesRate (assocSet rs k (r + v)) code =
        responsesRate rs code + (if k = code then v else 0) := by
  induction rs with
  | nil =>
    intro k v r h code
    simp [assocGet] at h
  | cons p rest ih =>
    intro k v r h code
    obtain ⟨k0, v0⟩ := p
    by_cases h0 : k0 = k
    · subst h0
      have hr : v0 = r := by simpa [assocGet] using h
      subst hr
      rw [show assocSet ((k0, v0) :: rest) k0 (v0 + v) = (k0, v0 + v) :: rest by simp [assocSet]]
      rw [responsesRate_cons, responsesRate_cons]
      by_cases hc : k0 = code <;> (simp [hc]; try ring)
    · have h' : assocGet rest k = some r := by simpa [assocGet, h0] using h
      rw [show assocSet ((k0, v0) :: rest) k (r + v) = (k0, v0) :: assocSet rest k (r + v) by
        simp [assocSet, h0]]
      rw [responsesRate_cons, responsesRate_cons, ih k v r h' code]
      ring

theorem responsesRate_mergeResponses (incoming : List (String × Rat)) :
    ∀ (rs : List (String × Rat)) (code : String),
      responsesRate (mergeResponses rs incoming) code =
        responsesRate rs code + responsesRate incoming code := by
  induction incoming with
  | nil =>
    intro rs code
    simp [mergeResponses, responsesRate]
  | cons p rest ih =>
    intro rs code
    rw [show mergeResponses rs (p :: rest) =
      mergeResponses (match assocGet rs p.1 with
        | some r => assocSet rs p.1 (r + p.2)
        | none => rs ++ [p]) rest from rfl]
    rw [ih _ code]
    obtain ⟨k, v⟩ := p
    rcases hg : assocGet rs k with _ | r
    · simp only [hg]
      rw [responsesRate_append, responsesRate_cons, responsesRate_cons]
      simp [responsesRate]
      ring
    · simp only [hg]
      rw [responsesRate_assocSet_add rs k v r hg code, responsesRate_cons]
      ring

theorem edgeRate_eq_mapMeasure (tm : List GNode) (src dst : GIdentity) (proto : String) :
    edgeRate tm src dst proto = mapMeasure (fun e => e.Rate) tm src dst proto := rfl

theorem edgeResponseRate_eq_mapMeasure (tm : List GNode) (src dst : GIdentity)
    (proto code : String) :
    edgeResponseRate tm src dst proto code =
      mapMeasure (fun e => responsesRate e.Responses code) tm src dst proto := rfl

theorem addEdge_rate_measure (s : RawSample) (es : List GEdge) (dst : GIdentity) (qp : String) :
    edgeListMeasure (fun e => e.Rate) (addEdge es s.Dest s.Protocol s.Rate s.Responses) dst qp =
      edgeListMeasure (fun e => e.Rate) es dst qp +
        (if s.Dest = dst ∧ s.Protocol = qp then s.Rate else 0) := by
  exact edgeListMeasure_addEdge (fun e => e.Rate) s.Rate s.Dest s.Protocol s.Rate s.Responses
    (fun e _ _ => rfl) rfl es dst qp

theorem addEdge_responses_measure (code : String) (s : RawSample) (es : List GEdge)
    (dst : GIdentity) (qp : String) :
    edgeListMeasure (fun e => responsesRate e.Responses code)
        (addEdge es s.Dest s.Protocol s.Rate s.Responses) dst qp =
      edgeListMeasure (fun e => responsesRate e.Responses code) es dst qp +
        (if s.Dest = dst ∧ s.Protocol = qp then responsesRate s.Responses code else 0) := by
  exact edgeListMeasure_addEdge (fun e => responsesRate e.Responses code)
    (responsesRate s.Responses code) s.Dest s.Protocol s.Rate s.Responses
    (fun e _ _ => responsesRate_mergeResponses s.Responses e.Responses code) rfl es dst qp

theorem mem_edgeKeys_addEdge (tgt : GIdentity) (proto : String) (rate : Rat)
    (resp : List (String × Rat)) :
    ∀ (es : List GEdge) (k : GIdentity × String),
      k ∈ (addEdge es tgt proto rate resp).map (fun e => (e.Target, e.Protocol)) →
        k ∈ es.map (fun e => (e.Target, e.Protocol)) ∨ k = (tgt, proto) := by
  intro es
  induction es with
  | nil =>
    intro k hk
    simp [addEdge] at hk
    exact Or.inr hk
  | cons e rest ih =>
    intro k hk
    unfold addEdge at hk
    by_cases h : e.Target = tgt ∧ e.Protocol = proto
    · rw [if_pos h] at hk
      simp only [List.map_cons, List.mem_cons] at hk
      rcases hk with hk | hk
      · exact Or.inr hk
      · exact Or.inl (List.mem_cons_of_mem _ hk)
    · rw [if_neg h] at hk
      simp only [List.map_cons, List.mem_cons] at hk
      rcases hk with hk | hk
      · exact Or.inl (by simp [hk])
      · rcases ih k hk with h1 | h1
        · exact Or.inl (List.mem_cons_of_mem _ h1)
        · exact Or.inr h1

theorem nodup_edgeKeys_addEdge (tgt : GIdentity) (proto : String) (rate : Rat)
    (resp : List (String × Rat)) :
    ∀ es : List GEdge, (es.map (fun e => (e.Target, e.Protocol))).Nodup →
      ((addEdge es tgt proto rate resp).map (fun e => (e.Target, e.Protocol))).Nodup := by
  intro es
  induction es with
  | nil =>
    intro _
    simp [addEdge]
  | cons e rest ih =>
    intro h
    have h0 : ((e.Target, e.Protocol) :: rest.map (fun e => (e.Target, e.Protocol))).Nodup := by
      simpa only [List.map_cons] using h
    have h' := List.nodup_cons.mp h0
    unfold addEdge
    by_cases hm : e.Target = tgt ∧ e.Protocol = proto
    · rw [if_pos hm]
      simp only [List.map_cons]
      rw [List.nodup_cons]
      refine ⟨?_, h'.2⟩
      rw [← hm.1, ← hm.2]
      exact h'.1
    · rw [if_neg hm]
      simp only [List.map_cons]
      rw [List.nodup_cons]
      refine ⟨?_, ih h'.2⟩
      intro hmem
      rcases mem_edgeKeys_addEdge tgt proto rate resp rest _ hmem with h1 | h1
      · exact h'.1 h1
      · apply hm
        have h2 := Prod.mk.injEq (e.Target) (e.Protocol) tgt proto ▸ h1
        exact ⟨congrArg Prod.fst h1, congrArg Prod.snd h1⟩

theorem nodup_edgeKeys_upsertNode (tm : List GNode) (id : GIdentity)
    (h : ∀ n ∈ tm, (n.Edges.map (fun e => (e.Target, e.Protocol))).Nodup) :
    ∀ n ∈ upsertNode tm id, (n.Edges.map (fun e => (e.Target, e.Protocol))).Nodup := by
  intro n hn
  unfold upsertNode at hn
  by_cases hh : hasIdentity tm id
  · rw [if_pos hh] at hn
    exact h n hn
  · rw [if_neg hh] at hn
    rcases List.mem_append.mp hn with h1 | h1
    · exact h n h1
    · have : n = ⟨id, []⟩ := by simpa using h1
      rw [this]
      simp

theorem nodup_edgeKeys_applySampleEdges (tm : List GNode) (s : RawSample)
    (h : ∀ n ∈ tm, (n.Edges.map (fun e => (e.Target, e.Protocol))).Nodup) :
    ∀ n ∈ applySampleEdges tm s, (n.Edges.map (fun e => (e.Target, e.Protocol))).Nodup := by
  intro n hn
  unfold applySampleEdges at hn
  rcases List.mem_map.mp hn with ⟨m, hm, hmn⟩
  by_cases hms : m.Identity = s.Source
  · rw [if_pos hms] at hmn
    rw [← hmn]
    exact nodup_edgeKeys_addEdge s.Dest s.Protocol s.Rate s.Responses m.Edges (h m hm)
  · rw [if_neg hms] at hmn
    rw [← hmn]
    exact h m hm

theorem nodup_edgeKeys_foldl_buildStep (samples : List RawSample) :
    ∀ tm : List GNode, (∀ n ∈ tm, (n.Edges.map (fun e => (e.Target, e.Protocol))).Nodup) →
      ∀ n ∈ samples.foldl buildStep tm,
        (n.Edges.map (fun e => (e.Target, e.Protocol))).Nodup := by
  induction samples with
  | nil => intro tm h; exact h
  | cons s rest ih =>
    intro tm h
    rw [List.foldl_cons]
    apply ih
    unfold buildStep
    exact nodup_edgeKeys_applySampleEdges _ s
      (nodup_edgeKeys_upsertNode _ s.Dest (nodup_edgeKeys_upsertNode _ s.Source h))

/-- Claim C3: for every raw sample sequence the builder produces a map with
unique node identities — samples with identical identity fields resolve to the
same node, never a duplicate — in which every sample's source and destination
are present; repeated samples for the same (source, destination, protocol)
triple aggregate into edges whose total rate is the sum of the matching
samples' rates and whose response breakdowns merge by summing per
classification; each node's edge list holds at most one edge per
(target, protocol) pair; and on the spec's concrete scenario (two samples
`(A, S, http, 1.0)` and `(A, S, http, 0.5)`) the result is a single edge of
rate 1.5. -/
theorem buildTrafficMap_dedup_merge (samples : List RawSample) (src dst : GIdentity)
    (proto code : String) :
    ((gIdentities (buildTrafficMap samples)).Nodup) ∧
    (∀ s ∈ samples, s.Source ∈ gIdentities (buildTrafficMap samples) ∧
      s.Dest ∈ gIdentities (buildTrafficMap samples)) ∧
    (edgeRate (buildTrafficMap samples) src dst proto =
      ((samples.filter (fun s => sampleMatches s src dst proto)).map RawSample.Rate).sum) ∧
    (edgeResponseRate (buildTrafficMap samples) src dst proto code =
      ((samples.filter (fun s => sampleMatches s src dst proto)).map
        (fun s => responsesRate s.Responses code)).sum) ∧
    (∀ n ∈ buildTrafficMap samples, ((n.Edges.map (fun e => (e.Target, e.Protocol))).Nodup)) ∧
    (edgeCount (buildTrafficMap
        [⟨⟨"c", "ns", NodeType.workload, "A", "v1", "A-v1", ""⟩,
          ⟨"c", "ns", NodeType.service, "", "", "", "S"⟩, "http", 1, [("200", 1)]⟩,
         ⟨⟨"c", "ns", NodeType.workload, "A", "v1", "A-v1", ""⟩,
          ⟨"c", "ns", NodeType.service, "", "", "", "S"⟩, "http", 1/2, [("200", 1/2)]⟩])
        ⟨"c", "ns", NodeType.workload, "A", "v1", "A-v1", ""⟩
        ⟨"c", "ns", NodeType.service, "", "", "", "S"⟩ "http" = 1) ∧
    (edgeRate (buildTrafficMap
        [⟨⟨"c", "ns", NodeType.workload, "A", "v1", "A-v1", ""⟩,
          ⟨"c", "ns", NodeType.service, "", "", "", "S"⟩, "http", 1, [("200", 1)]⟩,
         ⟨⟨"c", "ns", NodeType.workload, "A", "v1", "A-v1", ""⟩,
          ⟨"c", "ns", NodeType.service, "", "", "", "S"⟩, "http", 1/2, [("200", 1/2)]⟩])
        ⟨"c", "ns", NodeType.workload, "A", "v1", "A-v1", ""⟩
        ⟨"c", "ns", NodeType.service, "", "", "", "S"⟩ "http" = 3/2) := by
  refine ⟨?_, ?_, ?_, ?_, ?_,
    by
      simp +decide [buildTrafficMap, buildStep, applySampleEdges, upsertNode, hasIdentity,
        addEdge, mergeResponses, assocGet, assocSet, edgeCount, edgeListCount]
      try norm_num,
    by
      simp +decide [buildTrafficMap, buildStep, applySampleEdges, upsertNode, hasIdentity,
        addEdge, mergeResponses, assocGet, assocSet, edgeRate, edgeListRate]
      try norm_num⟩
  · exact nodup_gIdentities_foldl_buildStep samples [] (by simp [gIdentities])
  · intro s hs
    exact sample_mem_gIdentities_foldl_buildStep samples [] s hs
  · rw [edgeRate_eq_mapMeasure]
    have := foldl_buildStep_mapMeasure (fun e => e.Rate) RawSample.Rate
      (fun s es d q => addEdge_rate_measure s es d q) src dst proto samples []
      (by simp [gIdentities])
    simpa [mapMeasure] using this
  · rw [edgeResponseRate_eq_mapMeasure]
    have := foldl_buildStep_mapMeasure (fun e => responsesRate e.Responses code)
      (fun s => responsesRate s.Responses code)
      (fun s es d q => addEdge_responses_measure code s es d q) src dst proto samples []
      (by simp [gIdentities])
    simpa [mapMeasure] using this
  · exact nodup_edgeKeys_foldl_buildStep samples [] (by simp)

/-! ## Health appender lemma library -/

theorem assocGet_eq_none_iff {κ α : Type} [DecidableEq κ] (m : List (κ × α)) (k : κ) :
    assocGet m k = none ↔ k ∉ assocKeys m := by
  induction m with
  | nil => simp [assocGet, assocKeys]
  | cons p rest ih =>
    obtain ⟨k0, v0⟩ := p
    by_cases h0 : k0 = k
    · subst h0
      simp [assocGet, assocKeys]
    · simp only [assocGet, if_neg h0, assocKeys, List.map_cons, List.mem_cons] at ih ⊢
      rw [ih]
      have : ¬ k = k0 := fun hh => h0 hh.symm
      tauto

theorem assocKeys_assocSet_of_get_some {κ α : Type} [DecidableEq κ] (m : List (κ × α)) (k : κ)
    (v w : α) (h : assocGet m k = some w) : assocKeys (assocSet m k v) = assocKeys m := by
  induction m with
  | nil => simp [assocGet] at h
  | cons p rest ih =>
    obtain ⟨k0, v0⟩ := p
    by_cases h0 : k0 = k
    · subst h0
      simp [assocSet, assocKeys]
    · have h' : assocGet rest k = some w := by simpa [assocGet, h0] using h
      simp only [assocSet, if_neg h0, assocKeys, List.map_cons] at ih ⊢
      rw [ih h']

theorem assocGet_append {κ α : Type} [DecidableEq κ] (m1 m2 : List (κ × α)) (k : κ) :
    assocGet (m1 ++ m2) k =
      (match assocGet m1 k with
        | some v => some v
        | none => assocGet m2 k) := by
  induction m1 with
  | nil => simp [assocGet]
  | cons p rest ih =>
    obtain ⟨k0, v0⟩ := p
    by_cases h0 : k0 = k
    · simp [assocGet, h0]
    · simpa [assocGet, h0] using ih

theorem assocGet_some_split {κ α : Type} [DecidableEq κ] (m : List (κ × α)) (k : κ) (v : α)
    (h : assocGet m k = some v) :
    ∃ m1 m2, m = m1 ++ (k, v) :: m2 ∧ k ∉ assocKeys m1 := by
  induction m with
  | nil => simp [assocGet] at h
  | cons p rest ih =>
    obtain ⟨k0, v0⟩ := p
    by_cases h0 : k0 = k
    · subst h0
      have hv : v0 = v := by simpa [assocGet] using h
      subst hv
      exact ⟨[], rest, rfl, by simp [assocKeys]⟩
    · have h' : assocGet rest k = some v := by simpa [assocGet, h0] using h
      obtain ⟨m1, m2, heq, hnm⟩ := ih h'
      refine ⟨(k0, v0) :: m1, m2, by rw [heq]; rfl, ?_⟩
      simp only [assocKeys, List.map_cons, List.mem_cons]
      rintro (h1 | h1)
      · exact h0 h1.symm
      · exact hnm h1

theorem groupNodes_addReq (reqs : HealthReqs) (ns : String) (kind : NodeType) (n : Node)
    (key : String × NodeType) :
    groupNodes (addReq reqs ns kind n) key =
      if key = (ns, kind) then groupNodes reqs key ++ [n] else groupNodes reqs key := by
  unfold addReq
  rcases hg : assocGet reqs (ns, kind) with _ | nodes
  · simp only [hg]
    unfold groupNodes
    rw [assocGet_append]
    by_cases hk : key = (ns, kind)
    · subst hk
      rw [hg, if_pos rfl]
      simp [assocGet]
    · rw [if_neg hk]
      have hk' : ¬ (ns, kind) = key := fun hh => hk hh.symm
      rcases hget : assocGet reqs key with _ | w
      · simp [assocGet, hk']
      · rfl
  · simp only [hg]
    unfold groupNodes
    by_cases hk : key = (ns, kind)
    · subst hk
      rw [assocGet_assocSet_self, hg, if_pos rfl]
      rfl
    · rw [assocGet_assocSet_ne _ _ _ _ hk, if_neg hk]

theorem groupNodes_buildHealthReqsStep (reqs : HealthReqs) (n : Node) (key : String × NodeType) :
    groupNodes (buildHealthReqsStep reqs n) key =
      groupNodes reqs key ++ (if nodeGroupKeyCond n key then [n] else []) := by
  obtain ⟨k1, k2⟩ := key
  unfold buildHealthReqsStep nodeGroupKeyCond
  by_cases hina : checkInaccessible n.Metadata
  · simp [hina]
  · simp only [hina, Bool.false_eq_true, if_false]
    by_cases hns : k1 = n.Namespace
    · subst hns
      rcases ht : n.NodeType with _ | _ | _ | _ | _
      · -- app node
        by_cases hok : IsOK n.Workload
        · simp only [hok, if_true]
          rw [groupNodes_addReq, groupNodes_addReq]
          rcases hk2 : k2 with _ | _ | _ | _ | _ <;> simp [hok]
        · simp only [hok, Bool.false_eq_true, if_false]
          rw [groupNodes_addReq]
          rcases hk2 : k2 with _ | _ | _ | _ | _ <;> simp [hok]
      · rw [groupNodes_addReq]
        rcases hk2 : k2 with _ | _ | _ | _ | _ <;> simp
      · rw [groupNodes_addReq]
        rcases hk2 : k2 with _ | _ | _ | _ | _ <;> simp
      · rcases hk2 : k2 with _ | _ | _ | _ | _ <;> simp
      · rcases hk2 : k2 with _ | _ | _ | _ | _ <;> simp
    · have hne : ∀ kk : NodeType, ¬ (k1, k2) = (n.Namespace, kk) := by
        intro kk hh
        exact hns (congrArg Prod.fst hh)
      rcases ht : n.NodeType with _ | _ | _ | _ | _
      · by_cases hok : IsOK n.Workload
        · simp only [hok, if_true]
          rw [groupNodes_addReq, groupNodes_addReq,
            if_neg (hne NodeType.workload), if_neg (hne NodeType.app)]
          simp [hns]
        · simp only [hok, Bool.false_eq_true, if_false]
          rw [groupNodes_addReq, if_neg (hne NodeType.app)]
          simp [hns]
      · rw [groupNodes_addReq, if_neg (hne NodeType.service)]
        simp [hns]
      · rw [groupNodes_addReq, if_neg (hne NodeType.workload)]
        simp [hns]
      · simp [hns]
      · simp [hns]

theorem groupNodes_buildHealthReqs_aux (key : String × NodeType) :
    ∀ (tm : TrafficMap) (reqs : HealthReqs),
      groupNodes (tm.foldl buildHealthReqsStep reqs) key =
        groupNodes reqs key ++ tm.filter (fun n => nodeGroupKeyCond n key) := by
  intro tm
  induction tm with
  | nil => intro reqs; simp
  | cons n rest ih =>
    intro reqs
    rw [List.foldl_cons, ih]
    rw [groupNodes_buildHealthReqsStep]
    rcases hc : nodeGroupKeyCond n key with _ | _
    · simp [List.filter_cons, hc]
    · simp [List.filter_cons, hc]

theorem groupNodes_buildHealthReqs (tm : TrafficMap) (key : String × NodeType) :
    groupNodes (buildHealthReqs tm) key = tm.filter (fun n => nodeGroupKeyCond n key) := by
  unfold buildHealthReqs
  rw [groupNodes_buildHealthReqs_aux key tm []]
  simp [groupNodes, assocGet]

theorem mem_addReq (reqs : HealthReqs) (ns : String) (kind : NodeType) (n : Node)
    (grp : (String × NodeType) × List Node) (h : grp ∈ addReq reqs ns kind n) :
    grp ∈ reqs ∨ (grp.1 = (ns, kind) ∧ grp.2 ≠ []) := by
  unfold addReq at h
  rcases hg : assocGet reqs (ns, kind) with _ | nodes
  · rw [hg] at h
    rcases List.mem_append.mp h with h1 | h1
    · exact Or.inl h1
    · have : grp = ((ns, kind), [n]) := by simpa using h1
      rw [this]
      exact Or.inr ⟨rfl, by simp⟩
  · rw [hg] at h
    rcases mem_assocSet _ _ _ _ h with h1 | h1
    · exact Or.inl h1
    · rw [h1]
      exact Or.inr ⟨rfl, by simp⟩

theorem assocKeys_addReq_nodup (reqs : HealthReqs) (ns : String) (kind : NodeType) (n : Node)
    (h : (assocKeys reqs).Nodup) : (assocKeys (addReq reqs ns kind n)).Nodup := by
  unfold addReq
  rcases hg : assocGet reqs (ns, kind) with _ | nodes
  · have hnm : (ns, kind) ∉ assocKeys reqs := (assocGet_eq_none_iff reqs (ns, kind)).mp hg
    have : assocKeys (reqs ++ [((ns, kind), [n])]) = assocKeys reqs ++ [(ns, kind)] := by
      simp [assocKeys]
    rw [this, List.nodup_append]
    exact ⟨h, List.nodup_singleton _, by simpa [List.disjoint_singleton] using hnm⟩
  · rw [assocKeys_assocSet_of_get_some reqs (ns, kind) (nodes ++ [n]) nodes hg]
    exact h

theorem assocKeys_buildHealthReqsStep_nodup (reqs : HealthReqs) (n : Node)
    (h : (assocKeys reqs).Nodup) : (assocKeys (buildHealthReqsStep reqs n)).Nodup := by
  unfold buildHealthReqsStep
  by_cases hina : checkInaccessible n.Metadata
  · simpa [hina] using h
  · simp only [hina, Bool.false_eq_true, if_false]
    rcases ht : n.NodeType with _ | _ | _ | _ | _
    · by_cases hok : IsOK n.Workload
      · simp only [hok, if_true]
        exact assocKeys_addReq_nodup _ _ _ _ (assocKeys_addReq_nodup _ _ _ _ h)
      · simp only [hok, Bool.false_eq_true, if_false]
        exact assocKeys_addReq_nodup _ _ _ _ h
    · exact assocKeys_addReq_nodup _ _ _ _ h
    · exact assocKeys_addReq_nodup _ _ _ _ h
    · exact h
    · exact h

theorem assocKeys_buildHealthReqs_nodup (tm : TrafficMap) :
    (assocKeys (buildHealthReqs tm)).Nodup := by
  unfold buildHealthReqs
  have : ∀ (l : TrafficMap) (reqs : HealthReqs), (assocKeys reqs).Nodup →
      (assocKeys (l.foldl buildHealthReqsStep reqs)).Nodup := by
    intro l
    induction l with
    | nil => intro reqs h; exact h
    | cons n rest ih =>
      intro reqs h
      exact ih _ (assocKeys_buildHealthReqsStep_nodup reqs n h)
  exact this tm [] (by simp [assocKeys])

theorem mem_buildHealthReqsStep (reqs : HealthReqs) (n : Node)
    (grp : (String × NodeType) × List Node) (h : grp ∈ buildHealthReqsStep reqs n) :
    grp ∈ reqs ∨
      ((grp.1.2 = NodeType.app ∨ grp.1.2 = NodeType.workload ∨ grp.1.2 = NodeType.service) ∧
        grp.2 ≠ []) := by
  unfold buildHealthReqsStep at h
  by_cases hina : checkInaccessible n.Metadata
  · rw [if_pos hina] at h
    exact Or.inl h
  · rw [if_neg hina] at h
    rcases ht : n.NodeType with _ | _ | _ | _ | _ <;> rw [ht] at h
    · by_cases hok : IsOK n.Workload
      · rw [if_pos hok] at h
        rcases mem_addReq _ _ _ _ _ h with h1 | h1
        · rcases mem_addReq _ _ _ _ _ h1 with h2 | h2
          · exact Or.inl h2
          · exact Or.inr ⟨Or.inl (congrArg Prod.snd h2.1), h2.2⟩
        · exact Or.inr ⟨Or.inr (Or.inl (congrArg Prod.snd h1.1)), h1.2⟩
      · rw [if_neg hok] at h
        rcases mem_addReq _ _ _ _ _ h with h1 | h1
        · exact Or.inl h1
        · exact Or.inr ⟨Or.inl (congrArg Prod.snd h1.1), h1.2⟩
    · rcases mem_addReq _ _ _ _ _ h with h1 | h1
      · exact Or.inl h1
      · exact Or.inr ⟨Or.inr (Or.inr (congrArg Prod.snd h1.1)), h1.2⟩
    · rcases mem_addReq _ _ _ _ _ h with h1 | h1
      · exact Or.inl h1
      · exact Or.inr ⟨Or.inr (Or.inl (congrArg Prod.snd h1.1)), h1.2⟩
    · exact Or.inl h
    · exact Or.inl h

theorem buildHealthReqs_wf (tm : TrafficMap) :
    ∀ grp ∈ buildHealthReqs tm,
      (grp.1.2 = NodeType.app ∨ grp.1.2 = NodeType.workload ∨ grp.1.2 = NodeType.service) ∧
        grp.2 ≠ [] := by
  unfold buildHealthReqs
  have : ∀ (l : TrafficMap) (reqs : HealthReqs),
      (∀ grp ∈ reqs,
        (grp.1.2 = NodeType.app ∨ grp.1.2 = NodeType.workload ∨ grp.1.2 = NodeType.service) ∧
          grp.2 ≠ []) →
      ∀ grp ∈ l.foldl buildHealthReqsStep reqs,
        (grp.1.2 = NodeType.app ∨ grp.1.2 = NodeType.workload ∨ grp.1.2 = NodeType.service) ∧
          grp.2 ≠ [] := by
    intro l
    induction l with
    | nil => intro reqs h; exact h
    | cons n rest ih =>
      intro reqs h
      apply ih
      intro grp hgrp
      rcases mem_buildHealthReqsStep reqs n grp hgrp with h1 | h1
      · exact h grp h1
      · exact h1
  exact this tm [] (by simp)

theorem attachHealthGroup_ok_log (a : HealthAppender) (bs : HealthClient)
    (acc : TrafficMap × List HealthQuery) (grp : (String × NodeType) × List Node)
    (acc1 : TrafficMap × List HealthQuery)
    (hwf : grp.1.2 = NodeType.app ∨ grp.1.2 = NodeType.workload ∨ grp.1.2 = NodeType.service)
    (h : attachHealthGroup a bs acc grp = Except.ok acc1) :
    acc1.2 = acc.2 ++ [⟨grp.1.1, grp.1.2, authorizedDuration a grp.1.1⟩] := by
  unfold attachHealthGroup at h
  rcases hk : grp.1.2 with _ | _ | _ | _ | _ <;> rw [hk] at h <;> simp only [] at h
  · rcases hq : bs.GetNamespaceAppHealth grp.1.1 (authorizedDuration a grp.1.1) with e | health <;>
      rw [hq] at h
    · cases h
    · cases h
      rfl
  · rcases hq : bs.GetNamespaceServiceHealth grp.1.1 (authorizedDuration a grp.1.1) with e | health <;>
      rw [hq] at h
    · cases h
    · cases h
      rfl
  · rcases hq : bs.GetNamespaceWorkloadHealth grp.1.1 (authorizedDuration a grp.1.1) with e | health <;>
      rw [hq] at h
    · cases h
    · cases h
      rfl
  · rcases hwf with h1 | h1 | h1 <;> (rw [hk] at h1; cases h1)
  · rcases hwf with h1 | h1 | h1 <;> (rw [hk] at h1; cases h1)

theorem attachHealth_foldlM_log (a : HealthAppender) (bs : HealthClient) (reqs : HealthReqs) :
    ∀ (acc : TrafficMap × List HealthQuery) (tm' : TrafficMap) (log' : List HealthQuery),
      (∀ grp ∈ reqs,
        grp.1.2 = NodeType.app ∨ grp.1.2 = NodeType.workload ∨ grp.1.2 = NodeType.service) →
      reqs.foldlM (attachHealthGroup a bs) acc = Except.ok (tm', log') →
      log' = acc.2 ++ reqs.map (fun grp => ⟨grp.1.1, grp.1.2, authorizedDuration a grp.1.1⟩) := by
  induction reqs with
  | nil =>
    intro acc tm' log' _ h
    simp only [List.foldlM_nil] at h
    cases h
    simp
  | cons grp rest ih =>
    intro acc tm' log' hwf h
    rw [List.foldlM_cons] at h
    rcases hstep : attachHealthGroup a bs acc grp with e | acc1
    · rw [hstep] at h
      exact Except.noConfusion (show Except.error e = Except.ok (tm', log') from h)
    · rw [hstep] at h
      have h' : rest.foldlM (attachHealthGroup a bs) acc1 = Except.ok (tm', log') := h
      have hrest := ih acc1 tm' log' (fun g hg => hwf g (List.mem_cons_of_mem _ hg)) h'
      rw [hrest, attachHealthGroup_ok_log a bs acc grp acc1
        (hwf grp (List.mem_cons_self grp rest)) hstep]
      simp

/-- Claim C4: a successful health-attachment run issues exactly one batched
query per (namespace, resource-kind) group of accessible nodes needing health:
the query log is in bijection with the group list (whose keys are duplicate
free and whose node lists are never empty), and each query's duration is the
namespace's authorized duration when the namespace is in the appender's scope
map, the globally requested duration otherwise. -/
theorem attachHealth_one_query_per_group (a : HealthAppender) (bs : HealthClient)
    (tm tm' : TrafficMap) (log : List HealthQuery)
    (h : attachHealth a bs tm = Except.ok (tm', log)) :
    log = (buildHealthReqs tm).map
        (fun grp => ⟨grp.1.1, grp.1.2, authorizedDuration a grp.1.1⟩) ∧
    (assocKeys (buildHealthReqs tm)).Nodup ∧
    (∀ grp ∈ buildHealthReqs tm, grp.2 ≠ []) ∧
    (∀ q ∈ log, q.Duration = authorizedDuration a q.Namespace) ∧
    (∀ q ∈ log,
      (match assocGet a.Namespaces q.Namespace with
        | some info => q.Duration = info.Duration
        | none => q.Duration = a.RequestedDuration)) := by
  unfold attachHealth at h
  have hlog := attachHealth_foldlM_log a bs (buildHealthReqs tm) (tm, []) tm' log
    (fun grp hg => (buildHealthReqs_wf tm grp hg).1) h
  simp only [List.nil_append] at hlog
  refine ⟨hlog, assocKeys_buildHealthReqs_nodup tm,
    fun grp hg => (buildHealthReqs_wf tm grp hg).2, ?_, ?_⟩
  · intro q hq
    rw [hlog] at hq
    rcases List.mem_map.mp hq with ⟨grp, _, hgq⟩
    rw [← hgq]
  · intro q hq
    rw [hlog] at hq
    rcases List.mem_map.mp hq with ⟨grp, _, hgq⟩
    rw [← hgq]
    unfold authorizedDuration
    rcases hg : assocGet a.Namespaces grp.1.1 with _ | info <;> simp [hg]

/-- Claim C4 witness: the theorem applied to a one-service-node traffic map
with an in-scope namespace of authorized duration 300. -/
theorem attachHealth_one_query_per_group_witness :
    ([(⟨"ns1", NodeType.service, 300⟩ : HealthQuery)]) =
      (buildHealthReqs [⟨"id1", NodeType.service, "c", "ns1", "", "", "", "s1", []⟩]).map
        (fun grp =>
          ⟨grp.1.1, grp.1.2,
            authorizedDuration ⟨[("ns1", ⟨300⟩)], 0, 600⟩ grp.1.1⟩) := by
  exact (attachHealth_one_query_per_group ⟨[("ns1", ⟨300⟩)], 0, 600⟩
    ⟨fun _ _ => Except.ok [], fun _ _ => Except.ok [("s1", EmptyServiceHealth)],
      fun _ _ => Except.ok []⟩
    [⟨"id1", NodeType.service, "c", "ns1", "", "", "", "s1", []⟩]
    [⟨"id1", NodeType.service, "c", "ns1", "", "", "", "s1",
      [(MetadataKey.HealthData, MetadataValue.svcHealthData EmptyServiceHealth)]⟩]
    [⟨"ns1", NodeType.service, 300⟩] (by rfl)).1

theorem findNode_some_id (tm : TrafficMap) (id : String) (m : Node)
    (h : findNode tm id = some m) : m.ID = id := by
  induction tm with
  | nil => simp [findNode] at h
  | cons n rest ih =>
    by_cases hn : n.ID = id
    · rw [show findNode (n :: rest) id = some n by simp [findNode, hn]] at h
      cases h
      exact hn
    · rw [show findNode (n :: rest) id = findNode rest id by simp [findNode, hn]] at h
      exact ih h

theorem findNode_map (g : Node → Node) (hg : ∀ m, (g m).ID = m.ID) (tm : TrafficMap)
    (id : String) : findNode (tm.map g) id = (findNode tm id).map g := by
  induction tm with
  | nil => rfl
  | cons n rest ih =>
    by_cases hn : n.ID = id
    · simp [findNode, hg, hn]
    · simp [findNode, hg, hn, ih]

theorem findNode_updateNodeMeta (tm : TrafficMap) (uid : String) (f : Metadata → Metadata)
    (id : String) :
    findNode (updateNodeMeta tm uid f) id =
      (findNode tm id).map
        (fun m => if m.ID = uid then { m with Metadata := f m.Metadata } else m) := by
  unfold updateNodeMeta
  apply findNode_map
  intro m
  by_cases hm : m.ID = uid <;> simp [hm]

theorem findNode_updateNodeMeta_ne (tm : TrafficMap) (uid : String) (f : Metadata → Metadata)
    (id : String) (h : uid ≠ id) :
    findNode (updateNodeMeta tm uid f) id = findNode tm id := by
  rw [findNode_updateNodeMeta]
  rcases hf : findNode tm id with _ | m
  · rfl
  · have hid : m.ID = id := findNode_some_id tm id m hf
    have h' : ¬ m.ID = uid := by
      rw [hid]
      exact fun hh => h hh.symm
    simp [h']

theorem findNode_of_mem_nodup (tm : TrafficMap) (n : Node) (hnd : (nodeIDs tm).Nodup)
    (hmem : n ∈ tm) : findNode tm n.ID = some n := by
  induction tm with
  | nil => simp at hmem
  | cons m rest ih =>
    have hnd0 : (m.ID :: rest.map Node.ID).Nodup := by
      simpa only [nodeIDs, List.map_cons] using hnd
    have hnd' := List.nodup_cons.mp hnd0
    rcases List.mem_cons.mp hmem with h1 | h1
    · subst h1
      simp [findNode]
    · by_cases hm : m.ID = n.ID
      · exfalso
        apply hnd'.1
        rw [hm]
        exact List.mem_map_of_mem Node.ID h1
      · rw [show findNode (m :: rest) n.ID = findNode rest n.ID by simp [findNode, hm]]
        exact ih (by simpa only [nodeIDs] using hnd'.2) h1

theorem nodup_ids_inj (tm : TrafficMap) (hnd : (nodeIDs tm).Nodup) (m n : Node)
    (hm : m ∈ tm) (hn : n ∈ tm) (hid : m.ID = n.ID) : m = n := by
  have h1 : findNode tm m.ID = some m := findNode_of_mem_nodup tm m hnd hm
  have h2 : findNode tm n.ID = some n := findNode_of_mem_nodup tm n hnd hn
  rw [hid, h2] at h1
  exact (Option.some.injEq _ _ ▸ h1).symm

theorem foldl_updateNodeMeta_frame (upd : Node → Metadata → Metadata) (nodes : List Node) :
    ∀ (tm : TrafficMap) (id : String), (∀ m ∈ nodes, m.ID ≠ id) →
      findNode (nodes.foldl (fun tm n => updateNodeMeta tm n.ID (upd n)) tm) id =
        findNode tm id := by
  induction nodes with
  | nil => intro tm id _; rfl
  | cons n0 rest ih =>
    intro tm id h
    rw [List.foldl_cons, ih _ _ (fun m hm => h m (List.mem_cons_of_mem _ hm))]
    exact findNode_updateNodeMeta_ne tm n0.ID _ id (h n0 (List.mem_cons_self n0 rest))

theorem foldl_updateNodeMeta_findNode (upd : Node → Metadata → Metadata) (nodes : List Node) :
    ∀ (tm : TrafficMap) (n : Node), (nodes.map Node.ID).Nodup → n ∈ nodes →
      findNode (nodes.foldl (fun tm n => updateNodeMeta tm n.ID (upd n)) tm) n.ID =
        (findNode tm n.ID).map (fun m => { m with Metadata := upd n m.Metadata }) := by
  induction nodes with
  | nil => intro tm n _ hmem; simp at hmem
  | cons n0 rest ih =>
    intro tm n hnd hmem
    have hnd0 : (n0.ID :: rest.map Node.ID).Nodup := by
      simpa only [List.map_cons] using hnd
    have hnd' := List.nodup_cons.mp hnd0
    rcases List.mem_cons.mp hmem with h1 | h1
    · subst h1
      rw [List.foldl_cons]
      rw [foldl_updateNodeMeta_frame upd rest _ n.ID
        (fun m hm hmn => hnd'.1 (hmn ▸ List.mem_map_of_mem Node.ID hm))]
      rw [findNode_updateNodeMeta]
      rcases hf : findNode tm n.ID with _ | m
      · rfl
      · have hid : m.ID = n.ID := findNode_some_id tm n.ID m hf
        simp [hid]
    · have hne : n.ID ≠ n0.ID := by
        intro hh
        exact hnd'.1 (hh ▸ List.mem_map_of_mem Node.ID h1)
      rw [List.foldl_cons, ih _ n hnd'.2 h1,
        findNode_updateNodeMeta_ne tm n0.ID _ n.ID (fun hh => hne hh.symm)]

theorem distributeServiceHealth_eq (health : List (String × ServiceHealth))
    (nodes : List Node) (tm : TrafficMap) :
    distributeServiceHealth health nodes tm =
      nodes.foldl (fun tm n => updateNodeMeta tm n.ID (svcHealthUpd health n)) tm := by
  unfold distributeServiceHealth
  have hstep : (fun (tm : TrafficMap) (n : Node) =>
      match assocGet health n.Service with
      | some h =>
        updateNodeMeta tm n.ID
          (fun md => assocSet md MetadataKey.HealthData (MetadataValue.svcHealthData h))
      | none =>
        updateNodeMeta tm n.ID
          (fun md => assocSet md MetadataKey.HealthData MetadataValue.noData)) =
      (fun tm n => updateNodeMeta tm n.ID (svcHealthUpd health n)) := by
    funext tm n
    rcases hg : assocGet health n.Service with _ | h <;>
      (simp only [hg]; congr 1; funext md; simp [svcHealthUpd, serviceHealthValue, hg])
  rw [hstep]

theorem distributeWorkloadHealth_eq (health : List (String × WorkloadHealth))
    (nodes : List Node) (tm : TrafficMap) :
    distributeWorkloadHealth health nodes tm =
      nodes.foldl (fun tm n => updateNodeMeta tm n.ID (wkHealthUpd health n)) tm := by
  unfold distributeWorkloadHealth
  have hstep : (fun (tm : TrafficMap) (n : Node) =>
      match assocGet health n.Workload with
      | some h =>
        updateNodeMeta tm n.ID
          (fun md => assocSet md MetadataKey.HealthData (MetadataValue.wkHealthData h))
      | none =>
        updateNodeMeta tm n.ID
          (fun md => assocSet md MetadataKey.HealthData MetadataValue.noData)) =
      (fun tm n => updateNodeMeta tm n.ID (wkHealthUpd health n)) := by
    funext tm n
    rcases hg : assocGet health n.Workload with _ | h <;>
      (simp only [hg]; congr 1; funext md; simp [wkHealthUpd, workloadHealthValue, hg])
  rw [hstep]

theorem distributeAppHealth_eq (health : List (String × AppHealth))
    (nodes : List Node) (tm : TrafficMap) :
    distributeAppHealth health nodes tm =
      nodes.foldl (fun tm n => updateNodeMeta tm n.ID (appHealthUpd health n)) tm := by
  unfold distributeAppHealth
  have hstep : (fun (tm : TrafficMap) (n : Node) =>
      match assocGet health n.App with
      | some h =>
        if IsOK n.Workload then
          updateNodeMeta tm n.ID
            (fun md => assocSet md MetadataKey.HealthDataApp (MetadataValue.appHealthData h))
        else
          updateNodeMeta tm n.ID
            (fun md => assocSet md MetadataKey.HealthData (MetadataValue.appHealthData h))
      | none =>
        updateNodeMeta tm n.ID
          (fun md => assocSet md MetadataKey.HealthData MetadataValue.noData)) =
      (fun tm n => updateNodeMeta tm n.ID (appHealthUpd health n)) := by
    funext tm n
    rcases hg : assocGet health n.App with _ | h
    · simp only [hg]
      congr 1
      funext md
      simp [appHealthUpd, hg]
    · simp only [hg]
      by_cases hok : IsOK n.Workload <;>
        (simp only [hok, if_true, Bool.false_eq_true, if_false]; congr 1; funext md;
          simp [appHealthUpd, hg, hok])
  rw [hstep]

/-- Claim C5: distributing a batched health result attaches, to every node of
the group whose app/service/workload name matches an entry, that entry as its
health metadata (for a matched app node: under `HealthDataApp` when it is a
versioned app node, under `HealthData` otherwise), and gives every group node
with no matching entry — app, service and workload kind alike — the explicit
empty no-data marker, which is distinguishable (a different constructor) from
every real health record with zero traffic; nodes outside the group are
untouched. -/
theorem distribute_batched_result (health_s : List (String × ServiceHealth))
    (health_w : List (String × WorkloadHealth)) (health_a : List (String × AppHealth))
    (nodes_s nodes_w nodes_a : List Node)
    (tm : TrafficMap) (n : Node) (h : ServiceHealth) (hw : WorkloadHealth) (ha : AppHealth) :
    ((nodes_s.map Node.ID).Nodup → n ∈ nodes_s → assocGet health_s n.Service = some h →
      findNode (distributeServiceHealth health_s nodes_s tm) n.ID =
        (findNode tm n.ID).map (fun m =>
          { m with Metadata := assocSet m.Metadata MetadataKey.HealthData (MetadataValue.svcHealthData h) })) ∧
    ((nodes_s.map Node.ID).Nodup → n ∈ nodes_s → assocGet health_s n.Service = none →
      findNode (distributeServiceHealth health_s nodes_s tm) n.ID =
        (findNode tm n.ID).map (fun m =>
          { m with Metadata := assocSet m.Metadata MetadataKey.HealthData MetadataValue.noData })) ∧
    ((nodes_w.map Node.ID).Nodup → n ∈ nodes_w → assocGet health_w n.Workload = some hw →
      findNode (distributeWorkloadHealth health_w nodes_w tm) n.ID =
        (findNode tm n.ID).map (fun m =>
          { m with Metadata := assocSet m.Metadata MetadataKey.HealthData (MetadataValue.wkHealthData hw) })) ∧
    ((nodes_w.map Node.ID).Nodup → n ∈ nodes_w → assocGet health_w n.Workload = none →
      findNode (distributeWorkloadHealth health_w nodes_w tm) n.ID =
        (findNode tm n.ID).map (fun m =>
          { m with Metadata := assocSet m.Metadata MetadataKey.HealthData MetadataValue.noData })) ∧
    ((nodes_a.map Node.ID).Nodup → n ∈ nodes_a → assocGet health_a n.App = some ha →
      IsOK n.Workload = true →
      findNode (distributeAppHealth health_a nodes_a tm) n.ID =
        (findNode tm n.ID).map (fun m =>
          { m with Metadata := assocSet m.Metadata MetadataKey.HealthDataApp (MetadataValue.appHealthData ha) })) ∧
    ((nodes_a.map Node.ID).Nodup → n ∈ nodes_a → assocGet health_a n.App = some ha →
      IsOK n.Workload = false →
      findNode (distributeAppHealth health_a nodes_a tm) n.ID =
        (findNode tm n.ID).map (fun m =>
          { m with Metadata := assocSet m.Metadata MetadataKey.HealthData (MetadataValue.appHealthData ha) })) ∧
    ((nodes_a.map Node.ID).Nodup → n ∈ nodes_a → assocGet health_a n.App = none →
      findNode (distributeAppHealth health_a nodes_a tm) n.ID =
        (findNode tm n.ID).map (fun m =>
          { m with Metadata := assocSet m.Metadata MetadataKey.HealthData MetadataValue.noData })) ∧
    (MetadataValue.noData ≠ MetadataValue.svcHealthData EmptyServiceHealth) ∧
    (MetadataValue.noData ≠ MetadataValue.wkHealthData EmptyWorkloadHealth) ∧
    (MetadataValue.noData ≠ MetadataValue.appHealthData EmptyAppHealth) ∧
    (∀ id : String, (∀ m ∈ nodes_s, m.ID ≠ id) →
      findNode (distributeServiceHealth health_s nodes_s tm) id = findNode tm id) ∧
    (∀ id : String, (∀ m ∈ nodes_w, m.ID ≠ id) →
      findNode (distributeWorkloadHealth health_w nodes_w tm) id = findNode tm id) ∧
    (∀ id : String, (∀ m ∈ nodes_a, m.ID ≠ id) →
      findNode (distributeAppHealth health_a nodes_a tm) id = findNode tm id) := by
  refine ⟨?_, ?_, ?_, ?_, ?_, ?_, ?_, by simp, by simp, by simp, ?_, ?_, ?_⟩
  · intro hnd hmem hg
    rw [distributeServiceHealth_eq, foldl_updateNodeMeta_findNode _ nodes_s tm n hnd hmem]
    simp [svcHealthUpd, serviceHealthValue, hg]
  · intro hnd hmem hg
    rw [distributeServiceHealth_eq, foldl_updateNodeMeta_findNode _ nodes_s tm n hnd hmem]
    simp [svcHealthUpd, serviceHealthValue, hg]
  · intro hnd hmem hg
    rw [distributeWorkloadHealth_eq, foldl_updateNodeMeta_findNode _ nodes_w tm n hnd hmem]
    simp [wkHealthUpd, workloadHealthValue, hg]
  · intro hnd hmem hg
    rw [distributeWorkloadHealth_eq, foldl_updateNodeMeta_findNode _ nodes_w tm n hnd hmem]
    simp [wkHealthUpd, workloadHealthValue, hg]
  · intro hnd hmem hg hok
    rw [distributeAppHealth_eq, foldl_updateNodeMeta_findNode _ nodes_a tm n hnd hmem]
    have hupd : appHealthUpd health_a n = fun md =>
        assocSet md MetadataKey.HealthDataApp (MetadataValue.appHealthData ha) := by
      funext md
      simp [appHealthUpd, hg, hok]
    rw [hupd]
  · intro hnd hmem hg hok
    rw [distributeAppHealth_eq, foldl_updateNodeMeta_findNode _ nodes_a tm n hnd hmem]
    have hupd : appHealthUpd health_a n = fun md =>
        assocSet md MetadataKey.HealthData (MetadataValue.appHealthData ha) := by
      funext md
      simp [appHealthUpd, hg, hok]
    rw [hupd]
  · intro hnd hmem hg
    rw [distributeAppHealth_eq, foldl_updateNodeMeta_findNode _ nodes_a tm n hnd hmem]
    have hupd : appHealthUpd health_a n = fun md =>
        assocSet md MetadataKey.HealthData MetadataValue.noData := by
      funext md
      simp [appHealthUpd, hg]
    rw [hupd]
  · intro id hid
    rw [distributeServiceHealth_eq]
    exact foldl_updateNodeMeta_frame _ nodes_s tm id hid
  · intro id hid
    rw [distributeWorkloadHealth_eq]
    exact foldl_updateNodeMeta_frame _ nodes_w tm id hid
  · intro id hid
    rw [distributeAppHealth_eq]
    exact foldl_updateNodeMeta_frame _ nodes_a tm id hid

/-- Claim C5 witness: the theorem applied twice at concrete inputs — a service
node with a matching batched entry receives that entry, and an app node with
no matching entry in its batched result receives the explicit no-data
marker. -/
theorem distribute_batched_result_witness :
    findNode
        (distributeServiceHealth [("s1", EmptyServiceHealth)]
          [⟨"id1", NodeType.service, "c", "ns1", "", "", "", "s1", []⟩]
          [⟨"id1", NodeType.service, "c", "ns1", "", "", "", "s1", []⟩])
        "id1" =
      (findNode [⟨"id1", NodeType.service, "c", "ns1", "", "", "", "s1", []⟩] "id1").map
        (fun m =>
          { m with Metadata := assocSet m.Metadata MetadataKey.HealthData (MetadataValue.svcHealthData EmptyServiceHealth) }) ∧
    findNode
        (distributeAppHealth []
          [⟨"id2", NodeType.app, "c", "ns1", "a1", "v1", "w1", "", []⟩]
          [⟨"id2", NodeType.app, "c", "ns1", "a1", "v1", "w1", "", []⟩])
        "id2" =
      (findNode [(⟨"id2", NodeType.app, "c", "ns1", "a1", "v1", "w1", "", []⟩ : Node)] "id2").map
        (fun m =>
          { m with Metadata := assocSet m.Metadata MetadataKey.HealthData MetadataValue.noData }) := by
  constructor
  · exact (distribute_batched_result [("s1", EmptyServiceHealth)] [] []
      [⟨"id1", NodeType.service, "c", "ns1", "", "", "", "s1", []⟩] [] []
      [⟨"id1", NodeType.service, "c", "ns1", "", "", "", "s1", []⟩]
      ⟨"id1", NodeType.service, "c", "ns1", "", "", "", "s1", []⟩
      EmptyServiceHealth EmptyWorkloadHealth EmptyAppHealth).1
      (by simp) (by simp) (by rfl)
  · exact (distribute_batched_result [] [] [] [] []
      [⟨"id2", NodeType.app, "c", "ns1", "a1", "v1", "w1", "", []⟩]
      [⟨"id2", NodeType.app, "c", "ns1", "a1", "v1", "w1", "", []⟩]
      ⟨"id2", NodeType.app, "c", "ns1", "a1", "v1", "w1", "", []⟩
      EmptyServiceHealth EmptyWorkloadHealth EmptyAppHealth).2.2.2.2.2.2.1
      (by simp) (by simp) (by rfl)

/-- Claim C6: an app node that carries a populated workload name (a versioned
app node) is grouped both under its namespace's App kind and its Workload
kind, while an app node without one is grouped only under the App kind; during
distribution a matching app-level entry is stored under the `HealthDataApp`
key for a versioned app node (and under `HealthData` for a plain app node),
and the workload-level entry is stored under the node's primary `HealthData`
key. -/
theorem versioned_app_two_groups (tm : TrafficMap) (n : Node)
    (health_a : List (String × AppHealth)) (health_w : List (String × WorkloadHealth))
    (nodes_a nodes_w : List Node) (tmd : TrafficMap) (h : AppHealth) (hw : WorkloadHealth) :
    (n ∈ tm → checkInaccessible n.Metadata = false → n.NodeType = NodeType.app →
      (n ∈ groupNodes (buildHealthReqs tm) (n.Namespace, NodeType.app)) ∧
      (IsOK n.Workload = true →
        n ∈ groupNodes (buildHealthReqs tm) (n.Namespace, NodeType.workload)) ∧
      (IsOK n.Workload = false → ∀ key : String × NodeType, key.2 ≠ NodeType.app →
        n ∉ groupNodes (buildHealthReqs tm) key)) ∧
    ((nodes_a.map Node.ID).Nodup → n ∈ nodes_a → assocGet health_a n.App = some h →
      IsOK n.Workload = true →
      findNode (distributeAppHealth health_a nodes_a tmd) n.ID =
        (findNode tmd n.ID).map (fun m =>
          { m with Metadata := assocSet m.Metadata MetadataKey.HealthDataApp (MetadataValue.appHealthData h) })) ∧
    ((nodes_a.map Node.ID).Nodup → n ∈ nodes_a → assocGet health_a n.App = some h →
      IsOK n.Workload = false →
      findNode (distributeAppHealth health_a nodes_a tmd) n.ID =
        (findNode tmd n.ID).map (fun m =>
          { m with Metadata := assocSet m.Metadata MetadataKey.HealthData (MetadataValue.appHealthData h) })) ∧
    ((nodes_w.map Node.ID).Nodup → n ∈ nodes_w → assocGet health_w n.Workload = some hw →
      findNode (distributeWorkloadHealth health_w nodes_w tmd) n.ID =
        (findNode tmd n.ID).map (fun m =>
          { m with Metadata := assocSet m.Metadata MetadataKey.HealthData (MetadataValue.wkHealthData hw) })) := by
  refine ⟨?_, ?_, ?_, ?_⟩
  · intro hmem hina ht
    refine ⟨?_, ?_, ?_⟩
    · rw [groupNodes_buildHealthReqs]
      rw [List.mem_filter]
      refine ⟨hmem, ?_⟩
      unfold nodeGroupKeyCond
      simp [hina, ht]
    · intro hok
      rw [groupNodes_buildHealthReqs]
      rw [List.mem_filter]
      refine ⟨hmem, ?_⟩
      unfold nodeGroupKeyCond
      simp [hina, ht, hok]
    · intro hok key hkey
      rw [groupNodes_buildHealthReqs]
      intro hmemf
      have hc := (List.mem_filter.mp hmemf).2
      unfold nodeGroupKeyCond at hc
      rw [if_neg (by simp [hina])] at hc
      by_cases hns : key.1 = n.Namespace
      · rw [if_pos hns, ht] at hc
        rcases hk2 : key.2 with _ | _ | _ | _ | _ <;> rw [hk2] at hc
        · exact hkey hk2
        · simp at hc
        · rw [hok] at hc
          simp at hc
        · simp at hc
        · simp at hc
      · rw [if_neg hns] at hc
        simp at hc
  · intro hnd hmem hg hok
    rw [distributeAppHealth_eq, foldl_updateNodeMeta_findNode _ nodes_a tmd n hnd hmem]
    have : appHealthUpd health_a n = fun md =>
        assocSet md MetadataKey.HealthDataApp (MetadataValue.appHealthData h) := by
      funext md
      simp [appHealthUpd, hg, hok]
    rw [this]
  · intro hnd hmem hg hok
    rw [distributeAppHealth_eq, foldl_updateNodeMeta_findNode _ nodes_a tmd n hnd hmem]
    have : appHealthUpd health_a n = fun md =>
        assocSet md MetadataKey.HealthData (MetadataValue.appHealthData h) := by
      funext md
      simp [appHealthUpd, hg, hok]
    rw [this]
  · intro hnd hmem hg
    rw [distributeWorkloadHealth_eq, foldl_updateNodeMeta_findNode _ nodes_w tmd n hnd hmem]
    have : wkHealthUpd health_w n = fun md =>
        assocSet md MetadataKey.HealthData (MetadataValue.wkHealthData hw) := by
      funext md
      simp [wkHealthUpd, workloadHealthValue, hg]
    rw [this]

/-- Claim C6 witness: the theorem applied to a versioned app node (app "a1",
workload "w1"), showing both group memberships and the `HealthDataApp` key. -/
theorem versioned_app_two_groups_witness :
    (⟨"id1", NodeType.app, "c", "ns1", "a1", "v1", "w1", "", []⟩ : Node) ∈
      groupNodes
        (buildHealthReqs [⟨"id1", NodeType.app, "c", "ns1", "a1", "v1", "w1", "", []⟩])
        ("ns1", NodeType.workload) ∧
    findNode
        (distributeAppHealth [("a1", EmptyAppHealth)]
          [⟨"id1", NodeType.app, "c", "ns1", "a1", "v1", "w1", "", []⟩]
          [⟨"id1", NodeType.app, "c", "ns1", "a1", "v1", "w1", "", []⟩])
        "id1" =
      (findNode [(⟨"id1", NodeType.app, "c", "ns1", "a1", "v1", "w1", "", []⟩ : Node)] "id1").map
        (fun m =>
          { m with Metadata := assocSet m.Metadata MetadataKey.HealthDataApp (MetadataValue.appHealthData EmptyAppHealth) }) := by
  have hthm := versioned_app_two_groups
    [⟨"id1", NodeType.app, "c", "ns1", "a1", "v1", "w1", "", []⟩]
    ⟨"id1", NodeType.app, "c", "ns1", "a1", "v1", "w1", "", []⟩
    [("a1", EmptyAppHealth)] []
    [⟨"id1", NodeType.app, "c", "ns1", "a1", "v1", "w1", "", []⟩] []
    [⟨"id1", NodeType.app, "c", "ns1", "a1", "v1", "w1", "", []⟩]
    EmptyAppHealth EmptyWorkloadHealth
  exact ⟨((hthm.1 (by simp) (by rfl) (by rfl)).2.1 (by rfl)),
    hthm.2.1 (by simp) (by simp) (by rfl) (by rfl)⟩

theorem attachHealthGroup_ok_frame (a : HealthAppender) (bs : HealthClient)
    (acc : TrafficMap × List HealthQuery) (grp : (String × NodeType) × List Node)
    (acc1 : TrafficMap × List HealthQuery) (id : String)
    (h : attachHealthGroup a bs acc grp = Except.ok acc1)
    (hm : ∀ m ∈ grp.2, m.ID ≠ id) :
    findNode acc1.1 id = findNode acc.1 id := by
  unfold attachHealthGroup at h
  rcases hk : grp.1.2 with _ | _ | _ | _ | _ <;> rw [hk] at h <;> simp only [] at h
  · rcases hq : bs.GetNamespaceAppHealth grp.1.1 (authorizedDuration a grp.1.1) with e | health <;>
      rw [hq] at h
    · cases h
    · cases h
      rw [distributeAppHealth_eq]
      exact foldl_updateNodeMeta_frame _ grp.2 acc.1 id hm
  · rcases hq : bs.GetNamespaceServiceHealth grp.1.1 (authorizedDuration a grp.1.1) with e | health <;>
      rw [hq] at h
    · cases h
    · cases h
      rw [distributeServiceHealth_eq]
      exact foldl_updateNodeMeta_frame _ grp.2 acc.1 id hm
  · rcases hq : bs.GetNamespaceWorkloadHealth grp.1.1 (authorizedDuration a grp.1.1) with e | health <;>
      rw [hq] at h
    · cases h
    · cases h
      rw [distributeWorkloadHealth_eq]
      exact foldl_updateNodeMeta_frame _ grp.2 acc.1 id hm
  · cases h
    rfl
  · cases h
    rfl

theorem attachHealth_foldlM_frame (a : HealthAppender) (bs : HealthClient) (reqs : HealthReqs) :
    ∀ (acc : TrafficMap × List HealthQuery) (tm' : TrafficMap) (log' : List HealthQuery)
      (id : String),
      reqs.foldlM (attachHealthGroup a bs) acc = Except.ok (tm', log') →
      (∀ grp ∈ reqs, ∀ m ∈ grp.2, m.ID ≠ id) →
      findNode tm' id = findNode acc.1 id := by
  induction reqs with
  | nil =>
    intro acc tm' log' id h _
    simp only [List.foldlM_nil] at h
    cases h
    rfl
  | cons grp rest ih =>
    intro acc tm' log' id h hm
    rw [List.foldlM_cons] at h
    rcases hstep : attachHealthGroup a bs acc grp with e | acc1
    · rw [hstep] at h
      exact Except.noConfusion (show Except.error e = Except.ok (tm', log') from h)
    · rw [hstep] at h
      have h' : rest.foldlM (attachHealthGroup a bs) acc1 = Except.ok (tm', log') := h
      rw [ih acc1 tm' log' id h' (fun g hg => hm g (List.mem_cons_of_mem _ hg))]
      exact attachHealthGroup_ok_frame a bs acc grp acc1 id hstep
        (hm grp (List.mem_cons_self grp rest))

theorem nodeGroupKeyCond_inaccessible (n : Node) (key : String × NodeType)
    (h : checkInaccessible n.Metadata = true) : nodeGroupKeyCond n key = false := by
  unfold nodeGroupKeyCond
  simp [h]

theorem nodeGroupKeyCond_not_inaccessible (n : Node) (key : String × NodeType)
    (h : nodeGroupKeyCond n key = true) : checkInaccessible n.Metadata = false := by
  by_cases hina : checkInaccessible n.Metadata
  · rw [nodeGroupKeyCond_inaccessible n key hina] at h
    cases h
  · simpa using hina

theorem nodeGroupKeyCond_service_eq (n : Node) (key : String × NodeType)
    (ht : n.NodeType = NodeType.service) (hc : nodeGroupKeyCond n key = true) :
    key = (n.Namespace, NodeType.service) := by
  unfold nodeGroupKeyCond at hc
  rw [if_neg (by simp [nodeGroupKeyCond_not_inaccessible n key hc])] at hc
  by_cases hns : key.1 = n.Namespace
  · rw [if_pos hns, ht] at hc
    rcases hk2 : key.2 with _ | _ | _ | _ | _ <;> rw [hk2] at hc
    · simp at hc
    · obtain ⟨k1, k2⟩ := key
      simp only at hns hk2
      rw [hns, hk2]
    · simp at hc
    · simp at hc
    · simp at hc
  · rw [if_neg hns] at hc
    cases hc

theorem nodeGroupKeyCond_service_self (n : Node) (ht : n.NodeType = NodeType.service)
    (hina : checkInaccessible n.Metadata = false) :
    nodeGroupKeyCond n (n.Namespace, NodeType.service) = true := by
  unfold nodeGroupKeyCond
  simp [hina, ht]

theorem assocGet_of_mem_nodup_keys {κ α : Type} [DecidableEq κ] (m : List (κ × α))
    (hnd : (assocKeys m).Nodup) (p : κ × α) (hp : p ∈ m) : assocGet m p.1 = some p.2 := by
  induction m with
  | nil => simp at hp
  | cons q rest ih =>
    have hnd' := List.nodup_cons.mp (by simpa only [assocKeys, List.map_cons] using hnd)
    rcases List.mem_cons.mp hp with h1 | h1
    · subst h1
      simp [assocGet]
    · by_cases hq : q.1 = p.1
      · exfalso
        apply hnd'.1
        rw [hq]
        exact List.mem_map_of_mem Prod.fst h1
      · rw [show assocGet (q :: rest) p.1 = assocGet rest p.1 by
          obtain ⟨k0, v0⟩ := q
          simp [assocGet, hq]]
        exact ih (by simpa only [assocKeys] using hnd'.2) h1

theorem except_foldlM_append {ε α β : Type} (f : β → α → Except ε β) (l1 l2 : List α) :
    ∀ init : β,
      (l1 ++ l2).foldlM f init =
        (match l1.foldlM f init with
          | Except.error e => Except.error e
          | Except.ok b => l2.foldlM f b) := by
  induction l1 with
  | nil => intro init; rfl
  | cons a t ih =>
    intro init
    rw [List.cons_append, List.foldlM_cons, List.foldlM_cons]
    rcases hf : f init a with e | b
    · rfl
    · exact ih b

theorem attachHealth_service_node (a : HealthAppender) (bs : HealthClient)
    (tm tm' : TrafficMap) (log : List HealthQuery) (n : Node)
    (hnd : (nodeIDs tm).Nodup) (hmem : n ∈ tm)
    (hina : checkInaccessible n.Metadata = false) (ht : n.NodeType = NodeType.service)
    (h : attachHealth a bs tm = Except.ok (tm', log)) :
    ∃ health,
      bs.GetNamespaceServiceHealth n.Namespace (authorizedDuration a n.Namespace) =
        Except.ok health ∧
      findNode tm' n.ID = some { n with Metadata := svcHealthUpd health n n.Metadata } := by
  have hgrpnodes := groupNodes_buildHealthReqs tm (n.Namespace, NodeType.service)
  have hmemgrp : n ∈ groupNodes (buildHealthReqs tm) (n.Namespace, NodeType.service) := by
    rw [hgrpnodes, List.mem_filter]
    exact ⟨hmem, nodeGroupKeyCond_service_self n ht hina⟩
  rcases hget : assocGet (buildHealthReqs tm) (n.Namespace, NodeType.service) with _ | nodes
  · exfalso
    unfold groupNodes at hmemgrp
    rw [hget] at hmemgrp
    simp at hmemgrp
  · have hnodes : nodes = tm.filter (fun m => nodeGroupKeyCond m (n.Namespace, NodeType.service)) := by
      unfold groupNodes at hgrpnodes
      rw [hget] at hgrpnodes
      exact hgrpnodes
    have hmemnodes : n ∈ nodes := by
      rw [hnodes, List.mem_filter]
      exact ⟨hmem, nodeGroupKeyCond_service_self n ht hina⟩
    have hndnodes : (nodes.map Node.ID).Nodup := by
      rw [hnodes]
      exact List.Nodup.sublist (List.Sublist.map Node.ID (List.filter_sublist tm)) hnd
    obtain ⟨r1, r2, hsplit, hnotin1⟩ :=
      assocGet_some_split (buildHealthReqs tm) (n.Namespace, NodeType.service) nodes hget
    have hndkeys : (assocKeys (buildHealthReqs tm)).Nodup := assocKeys_buildHealthReqs_nodup tm
    have hkeys_eq : assocKeys (buildHealthReqs tm) =
        assocKeys r1 ++ (n.Namespace, NodeType.service) :: assocKeys r2 := by
      rw [hsplit]
      simp [assocKeys]
    have hmid : (n.Namespace, NodeType.service) ∉ assocKeys r1 ++ assocKeys r2 := by
      have hthis : ((n.Namespace, NodeType.service) :: (assocKeys r1 ++ assocKeys r2)).Nodup := by
        rw [hkeys_eq] at hndkeys
        exact List.nodup_middle.mp hndkeys
      exact (List.nodup_cons.mp hthis).1
    have hnotin2 : (n.Namespace, NodeType.service) ∉ assocKeys r2 :=
      fun hh => hmid (List.mem_append.mpr (Or.inr hh))
    have hframe : ∀ part : HealthReqs, (∀ grp ∈ part, grp ∈ buildHealthReqs tm) →
        (∀ grp ∈ part, grp.1 ≠ (n.Namespace, NodeType.service)) →
        ∀ grp ∈ part, ∀ m ∈ grp.2, m.ID ≠ n.ID := by
      intro part hsub hkne grp hgrp m hm hmid'
      have hget' : assocGet (buildHealthReqs tm) grp.1 = some grp.2 :=
        assocGet_of_mem_nodup_keys (buildHealthReqs tm) hndkeys grp (hsub grp hgrp)
      have hgrp2 : grp.2 = tm.filter (fun mm => nodeGroupKeyCond mm grp.1) := by
        have h2 := groupNodes_buildHealthReqs tm grp.1
        unfold groupNodes at h2
        rw [hget'] at h2
        exact h2
      rw [hgrp2, List.mem_filter] at hm
      have hmn : m = n := nodup_ids_inj tm hnd m n hm.1 hmem hmid'
      have hmcond := hm.2
      rw [hmn] at hmcond
      exact hkne grp hgrp (nodeGroupKeyCond_service_eq n grp.1 ht hmcond)
    have hsub1 : ∀ grp ∈ r1, grp ∈ buildHealthReqs tm := by
      intro grp hgrp
      rw [hsplit]
      exact List.mem_append.mpr (Or.inl hgrp)
    have hkne1 : ∀ grp ∈ r1, grp.1 ≠ (n.Namespace, NodeType.service) := by
      intro grp hgrp hh
      exact hnotin1 (hh ▸ List.mem_map_of_mem Prod.fst hgrp)
    have hsub2 : ∀ grp ∈ r2, grp ∈ buildHealthReqs tm := by
      intro grp hgrp
      rw [hsplit]
      exact List.mem_append.mpr (Or.inr (List.mem_cons_of_mem _ hgrp))
    have hkne2 : ∀ grp ∈ r2, grp.1 ≠ (n.Namespace, NodeType.service) := by
      intro grp hgrp hh
      exact hnotin2 (hh ▸ List.mem_map_of_mem Prod.fst hgrp)
    unfold attachHealth at h
    rw [hsplit, except_foldlM_append (attachHealthGroup a bs)
      r1 (((n.Namespace, NodeType.service), nodes) :: r2) (tm, [])] at h
    rcases h1 : r1.foldlM (attachHealthGroup a bs) (tm, []) with e | acc1
    · rw [h1] at h
      simp at h
    · rw [h1] at h
      have h2 : ((((n.Namespace, NodeType.service), nodes) :: r2).foldlM
          (attachHealthGroup a bs) acc1) = Except.ok (tm', log) := h
      rw [List.foldlM_cons] at h2
      have hstep : attachHealthGroup a bs acc1 ((n.Namespace, NodeType.service), nodes) =
          (match bs.GetNamespaceServiceHealth n.Namespace (authorizedDuration a n.Namespace) with
            | Except.error e => Except.error e
            | Except.ok health =>
              Except.ok (distributeServiceHealth health nodes acc1.1,
                acc1.2 ++ [⟨n.Namespace, NodeType.service, authorizedDuration a n.Namespace⟩])) :=
        rfl
      rw [hstep] at h2
      rcases hq : bs.GetNamespaceServiceHealth n.Namespace (authorizedDuration a n.Namespace)
        with e | health
      · rw [hq] at h2
        exact Except.noConfusion (show Except.error e = Except.ok (tm', log) from h2)
      · rw [hq] at h2
        have h3 : r2.foldlM (attachHealthGroup a bs)
            (distributeServiceHealth health nodes acc1.1,
              acc1.2 ++ [⟨n.Namespace, NodeType.service, authorizedDuration a n.Namespace⟩]) =
            Except.ok (tm', log) := h2
        refine ⟨health, rfl, ?_⟩
        rw [attachHealth_foldlM_frame a bs r2 _ tm' log n.ID h3
          (fun grp hgrp => hframe r2 hsub2 hkne2 grp hgrp)]
        rw [show (distributeServiceHealth health nodes acc1.1,
            acc1.2 ++ [(⟨n.Namespace, NodeType.service,
              authorizedDuration a n.Namespace⟩ : HealthQuery)]).1 =
          distributeServiceHealth health nodes acc1.1 from rfl]
        rw [distributeServiceHealth_eq,
          foldl_updateNodeMeta_findNode _ nodes acc1.1 n hndnodes hmemnodes]
        have h4 : findNode acc1.1 n.ID = findNode tm n.ID := by
          have := attachHealth_foldlM_frame a bs r1 (tm, []) acc1.1 acc1.2 n.ID
          rw [show ((acc1.1, acc1.2) : TrafficMap × List HealthQuery) = acc1 from rfl] at this
          exact this h1 (fun grp hgrp => hframe r1 hsub1 hkne1 grp hgrp)
        rw [h4, findNode_of_mem_nodup tm n hnd hmem]
        rfl

/-- Claim C7: a node flagged inaccessible is left untouched by the health
appender — `attachHealthConfig` returns it unchanged, it joins no
(namespace, kind) group, removing it changes no group (hence no query is
issued on its behalf), and a successful `attachHealth` leaves its map entry
identical — while a node flagged only as outside the requested scope (shown
for a service node) is still grouped and receives health data end to end. -/
theorem inaccessible_skipped_outside_processed (gi : GlobalInfo) (a : HealthAppender)
    (bs : HealthClient) (tm tm' : TrafficMap) (log : List HealthQuery) (n : Node)
    (l1 l2 : TrafficMap) :
    (checkInaccessible n.Metadata = true → attachHealthConfigNode gi n = n) ∧
    (checkInaccessible n.Metadata = true →
      ∀ key : String × NodeType, n ∉ groupNodes (buildHealthReqs tm) key) ∧
    (checkInaccessible n.Metadata = true →
      buildHealthReqs (l1 ++ n :: l2) = buildHealthReqs (l1 ++ l2)) ∧
    ((nodeIDs tm).Nodup → n ∈ tm → checkInaccessible n.Metadata = true →
      attachHealth a bs tm = Except.ok (tm', log) → findNode tm' n.ID = some n) ∧
    ((nodeIDs tm).Nodup → n ∈ tm → checkInaccessible n.Metadata = false →
      checkOutside n.Metadata = true → n.NodeType = NodeType.service →
      attachHealth a bs tm = Except.ok (tm', log) →
      ∃ health,
        bs.GetNamespaceServiceHealth n.Namespace (authorizedDuration a n.Namespace) =
          Except.ok health ∧
        findNode tm' n.ID = some { n with Metadata := svcHealthUpd health n n.Metadata }) := by
  refine ⟨?_, ?_, ?_, ?_, ?_⟩
  · intro hina
    unfold attachHealthConfigNode
    rw [if_pos hina]
  · intro hina key
    rw [groupNodes_buildHealthReqs, List.mem_filter]
    rintro ⟨_, hc⟩
    rw [nodeGroupKeyCond_inaccessible n key hina] at hc
    cases hc
  · intro hina
    unfold buildHealthReqs
    rw [List.foldl_append, List.foldl_append, List.foldl_cons]
    rw [show buildHealthReqsStep (l1.foldl buildHealthReqsStep []) n =
      l1.foldl buildHealthReqsStep [] by unfold buildHealthReqsStep; rw [if_pos hina]]
  · intro hnd hmem hina h
    unfold attachHealth at h
    rw [attachHealth_foldlM_frame a bs (buildHealthReqs tm) (tm, []) tm' log n.ID h ?_]
    · exact findNode_of_mem_nodup tm n hnd hmem
    · intro grp hgrp m hm hmid
      have hndkeys := assocKeys_buildHealthReqs_nodup tm
      have hget' : assocGet (buildHealthReqs tm) grp.1 = some grp.2 :=
        assocGet_of_mem_nodup_keys (buildHealthReqs tm) hndkeys grp hgrp
      have hgrp2 : grp.2 = tm.filter (fun mm => nodeGroupKeyCond mm grp.1) := by
        have h2 := groupNodes_buildHealthReqs tm grp.1
        unfold groupNodes at h2
        rw [hget'] at h2
        exact h2
      rw [hgrp2, List.mem_filter] at hm
      have hmn : m = n := nodup_ids_inj tm hnd m n hm.1 hmem hmid
      have hmcond := hm.2
      rw [hmn] at hmcond
      rw [nodeGroupKeyCond_inaccessible n grp.1 hina] at hmcond
      cases hmcond
  · intro hnd hmem hina _ ht h
    exact attachHealth_service_node a bs tm tm' log n hnd hmem hina ht h

/-- Claim C7 witness: the theorem applied to a two-node map — one inaccessible
workload node left untouched, one outside service node that receives its
batched health entry. -/
theorem inaccessible_skipped_outside_processed_witness :
    attachHealthConfigNode ⟨fun _ _ => none, fun _ _ => none⟩
        ⟨"n1", NodeType.workload, "c", "ns1", "", "", "w1", "",
          [(MetadataKey.IsInaccessible, MetadataValue.flag true)]⟩ =
      ⟨"n1", NodeType.workload, "c", "ns1", "", "", "w1", "",
        [(MetadataKey.IsInaccessible, MetadataValue.flag true)]⟩ ∧
    findNode
        [⟨"n1", NodeType.workload, "c", "ns1", "", "", "w1", "",
          [(MetadataKey.IsInaccessible, MetadataValue.flag true)]⟩,
         ⟨"n2", NodeType.service, "c", "ns1", "", "", "", "s1",
          [(MetadataKey.IsOutside, MetadataValue.flag true),
           (MetadataKey.HealthData, MetadataValue.svcHealthData EmptyServiceHealth)]⟩]
        "n1" =
      some ⟨"n1", NodeType.workload, "c", "ns1", "", "", "w1", "",
        [(MetadataKey.IsInaccessible, MetadataValue.flag true)]⟩ := by
  have hthm := inaccessible_skipped_outside_processed ⟨fun _ _ => none, fun _ _ => none⟩
    ⟨[], 0, 600⟩
    ⟨fun _ _ => Except.ok [], fun _ _ => Except.ok [("s1", EmptyServiceHealth)],
      fun _ _ => Except.ok []⟩
    [⟨"n1", NodeType.workload, "c", "ns1", "", "", "w1", "",
      [(MetadataKey.IsInaccessible, MetadataValue.flag true)]⟩,
     ⟨"n2", NodeType.service, "c", "ns1", "", "", "", "s1",
      [(MetadataKey.IsOutside, MetadataValue.flag true)]⟩]
    [⟨"n1", NodeType.workload, "c", "ns1", "", "", "w1", "",
      [(MetadataKey.IsInaccessible, MetadataValue.flag true)]⟩,
     ⟨"n2", NodeType.service, "c", "ns1", "", "", "", "s1",
      [(MetadataKey.IsOutside, MetadataValue.flag true),
       (MetadataKey.HealthData, MetadataValue.svcHealthData EmptyServiceHealth)]⟩]
    [⟨"ns1", NodeType.service, 600⟩]
    ⟨"n1", NodeType.workload, "c", "ns1", "", "", "w1", "",
      [(MetadataKey.IsInaccessible, MetadataValue.flag true)]⟩
    [] []
  exact ⟨hthm.1 rfl, hthm.2.2.2.1 (by decide) (by decide) rfl (by rfl)⟩

/-! ## Claim C1: failure semantics of the batched health queries -/

/-- Claim C1 counterexample: with two namespaces in scope and only nsA's
batched app-health query failing (a timeout surfacing as ServiceUnavailable),
`attachHealth` aborts the whole run with that error — no traffic map is
produced at all, so the nsA node does not receive a no-data fallback, the nsB
node's health is discarded with the rest of the run, and no 200 response can
be built from it. -/
theorem health_query_failure_aborts_counterexample :
    attachHealth ⟨[("nsA", ⟨60⟩), ("nsB", ⟨60⟩)], 0, 600⟩
        ⟨fun ns _ =>
            if ns = "nsA" then Except.error (KialiError.serviceUnavailable "timeout")
            else Except.ok [],
          fun _ _ => Except.ok [("s1", EmptyServiceHealth)], fun _ _ => Except.ok []⟩
        [⟨"n1", NodeType.app, "c", "nsA", "a1", "", "", "", []⟩,
         ⟨"n2", NodeType.service, "c", "nsB", "", "", "", "s1", []⟩] =
      Except.error (KialiError.serviceUnavailable "timeout") := by
  rfl

theorem foldlM_error_of_mem {ε α β : Type} (f : β → α → Except ε β) (l : List α) (x : α)
    (hx : x ∈ l) (hf : ∀ acc : β, ∃ e, f acc x = Except.error e) :
    ∀ init : β, ∃ e, l.foldlM f init = Except.error e := by
  induction l with
  | nil => simp at hx
  | cons a t ih =>
    intro init
    rcases List.mem_cons.mp hx with h1 | h1
    · subst h1
      obtain ⟨e, he⟩ := hf init
      refine ⟨e, ?_⟩
      rw [List.foldlM_cons, he]
      rfl
    · rcases h1' : f init a with e | b
      · refine ⟨e, ?_⟩
        rw [List.foldlM_cons, h1']
        rfl
      · obtain ⟨e, he⟩ := ih h1 b
        refine ⟨e, ?_⟩
        rw [List.foldlM_cons, h1']
        exact he

theorem attachHealthGroup_error_of_queryFailed (a : HealthAppender) (bs : HealthClient)
    (acc : TrafficMap × List HealthQuery) (ns : String) (kind : NodeType) (nodes : List Node)
    (hfail : groupQueryFailed bs kind ns (authorizedDuration a ns) = true) :
    ∃ e, attachHealthGroup a bs acc ((ns, kind), nodes) = Except.error e := by
  rcases kind with _ | _ | _ | _ | _
  · unfold groupQueryFailed at hfail
    rcases hq : bs.GetNamespaceAppHealth ns (authorizedDuration a ns) with e | h
    · refine ⟨e, ?_⟩
      show (match bs.GetNamespaceAppHealth ns (authorizedDuration a ns) with
        | Except.error e => Except.error e
        | Except.ok health =>
          Except.ok (distributeAppHealth health nodes acc.1,
            acc.2 ++ [⟨ns, NodeType.app, authorizedDuration a ns⟩])) = Except.error e
      rw [hq]
    · rw [hq] at hfail
      cases hfail
  · unfold groupQueryFailed at hfail
    rcases hq : bs.GetNamespaceServiceHealth ns (authorizedDuration a ns) with e | h
    · refine ⟨e, ?_⟩
      show (match bs.GetNamespaceServiceHealth ns (authorizedDuration a ns) with
        | Except.error e => Except.error e
        | Except.ok health =>
          Except.ok (distributeServiceHealth health nodes acc.1,
            acc.2 ++ [⟨ns, NodeType.service, authorizedDuration a ns⟩])) = Except.error e
      rw [hq]
    · rw [hq] at hfail
      cases hfail
  · unfold groupQueryFailed at hfail
    rcases hq : bs.GetNamespaceWorkloadHealth ns (authorizedDuration a ns) with e | h
    · refine ⟨e, ?_⟩
      show (match bs.GetNamespaceWorkloadHealth ns (authorizedDuration a ns) with
        | Except.error e => Except.error e
        | Except.ok health =>
          Except.ok (distributeWorkloadHealth health nodes acc.1,
            acc.2 ++ [⟨ns, NodeType.workload, authorizedDuration a ns⟩])) = Except.error e
      rw [hq]
    · rw [hq] at hfail
      cases hfail
  · cases hfail
  · cases hfail

/-- Claim C1 (amended): a failing batched health query is NOT tolerated — if
any (namespace, kind) group's query fails for the duration the appender would
use, `attachHealth` aborts the whole run with an error (the embedding of the
`graph.CheckError` panic carrying the underlying error); the no-data fallback
applies only to nodes without a matching entry in a successful result. -/
theorem attachHealth_query_failure_aborts (a : HealthAppender) (bs : HealthClient)
    (tm : TrafficMap) (ns : String) (kind : NodeType) (nodes : List Node)
    (hmem : ((ns, kind), nodes) ∈ buildHealthReqs tm)
    (hfail : groupQueryFailed bs kind ns (authorizedDuration a ns) = true) :
    ∃ e, attachHealth a bs tm = Except.error e := by
  unfold attachHealth
  exact foldlM_error_of_mem (attachHealthGroup a bs) (buildHealthReqs tm) ((ns, kind), nodes)
    hmem (fun acc => attachHealthGroup_error_of_queryFailed a bs acc ns kind nodes hfail)
    (tm, [])

/-- Claim C1 witness: the amended theorem applied at the counterexample's
concrete input. -/
theorem attachHealth_query_failure_aborts_witness :
    ∃ e,
      attachHealth ⟨[("nsA", ⟨60⟩), ("nsB", ⟨60⟩)], 0, 600⟩
          ⟨fun ns _ =>
              if ns = "nsA" then Except.error (KialiError.serviceUnavailable "timeout")
              else Except.ok [],
            fun _ _ => Except.ok [("s1", EmptyServiceHealth)], fun _ _ => Except.ok []⟩
          [⟨"n1", NodeType.app, "c", "nsA", "a1", "", "", "", []⟩,
           ⟨"n2", NodeType.service, "c", "nsB", "", "", "", "s1", []⟩] =
        Except.error e := by
  exact attachHealth_query_failure_aborts ⟨[("nsA", ⟨60⟩), ("nsB", ⟨60⟩)], 0, 600⟩
    ⟨fun ns _ =>
        if ns = "nsA" then Except.error (KialiError.serviceUnavailable "timeout")
        else Except.ok [],
      fun _ _ => Except.ok [("s1", EmptyServiceHealth)], fun _ _ => Except.ok []⟩
    [⟨"n1", NodeType.app, "c", "nsA", "a1", "", "", "", []⟩,
     ⟨"n2", NodeType.service, "c", "nsB", "", "", "", "s1", []⟩]
    "nsA" NodeType.app [⟨"n1", NodeType.app, "c", "nsA", "a1", "", "", "", []⟩]
    (by decide) (by rfl)

end Kiali
